import Mathlib

/-! # nRF24 Esk8 Remote transmitter: throttle conditioning, settings store, link health

A shallow embedding of `src/transmitter/src/main.cpp`.

Conventions of the embedding

* The target is an 8-bit AVR Arduino: `int` and `short` are 16-bit two's complement,
  `long` is 32-bit, `byte` is an unsigned 8-bit value, `unsigned long` is 32-bit.
  Machine integers are carried as `Int` and every narrowing is written out with
  `wrap16`, `wrap32` or `toByte`.
* Integer division by zero is undefined in C; the functions that can reach it return
  `Option` and yield `none` there.
* The global variables of `main.cpp` are gathered in the structure `Globals`; each C
  function becomes a function on `Globals`.
* The EEPROM, the radio and the analog pin are outside the program: the EEPROM is the
  field `eeprom`, the radio outcome and the analog samples are arguments.
* `float` values are idealised as exact rationals; a float division by zero (which gives
  an infinity or a NaN on the target, not a trap) is `none`.
-/

namespace Esk8Remote

/-! ## Machine integers -/

/-- Two's complement reduction to a signed 16-bit value (`int`, `short`). -/
def wrap16 (x : Int) : Int := (x + 32768) % 65536 - 32768

/-- Two's complement reduction to a signed 32-bit value (`long`). -/
def wrap32 (x : Int) : Int := (x + 2147483648) % 4294967296 - 2147483648

/-- Conversion of an `int` to `byte` (unsigned 8-bit): reduction modulo 256. -/
def toByte (x : Int) : Int := x % 256

/-- Conversion of an `int` to `bool`: any non-zero value becomes 1. -/
def toBool (x : Int) : Int := if x = 0 then 0 else 1

/-! ## Arduino core helpers used by `main.cpp` -/

/-- The Arduino core function
`long map(long x, long in_min, long in_max, long out_min, long out_max)`, which returns
`(x - in_min) * (out_max - out_min) / (in_max - in_min) + out_min` in `long` arithmetic
with the truncating division of C. A zero divisor gives `none`. -/
def map (x in_min in_max out_min out_max : Int) : Option Int :=
  if wrap32 (in_max - in_min) = 0 then none
  else
    some (wrap32 (wrap32 (Int.tdiv (wrap32 (wrap32 (x - in_min) * wrap32 (out_max - out_min)))
      (wrap32 (in_max - in_min))) + out_min))

/-- The Arduino macro `constrain(amt, low, high)`:
`((amt)<(low)?(low):((amt)>(high)?(high):(amt)))`. -/
def constrain (amt low high : Int) : Int :=
  if amt < low then low else if amt > high then high else amt

/-- The Arduino macro `abs(x)`: `((x)>0?(x):-(x))`, on a 16-bit `int`. -/
def abs (x : Int) : Int := if x > 0 then x else wrap16 (-x)

/-! ## Data model -/

/-- The C `struct settings`: fields 0..6 are `byte`, field 7 is `bool` (kept as the value
of its storage byte, since a record read from EEPROM may hold any byte there), fields
8..10 are `int`. -/
structure settings where
  triggerMode : Int
  batteryType : Int
  batteryCells : Int
  motorPoles : Int
  motorPulley : Int
  wheelPulley : Int
  wheelDiameter : Int
  useUart : Int
  minHallValue : Int
  centerHallValue : Int
  maxHallValue : Int
  deriving DecidableEq, Repr

/-- The C `struct vescValues` (telemetry received in the acknowledgement payload). -/
structure vescValues where
  ampHours : ℚ
  inpVoltage : ℚ
  rpm : Int
  tachometerAbs : Int
  deriving DecidableEq

/-- The constant `numOfSettings`. -/
def numOfSettings : Nat := 11

/-- The table `settingRules[numOfSettings][3]`; each row is default, min, max. -/
def settingRules : List (Int × Int × Int) :=
  [ (0, 0, 3),
    (0, 0, 1),
    (10, 0, 12),
    (14, 0, 250),
    (15, 0, 250),
    (40, 0, 250),
    (83, 0, 250),
    (1, 0, 1),
    (0, 0, 1023),
    (512, 0, 1023),
    (1023, 0, 1023) ]

/-- Column 0 of row `i` of `settingRules` (the default). -/
def ruleDefault (i : Nat) : Int := (settingRules.getD i (0, 0, 0)).1

/-- Column 1 of row `i` of `settingRules` (the minimum). -/
def ruleMin (i : Nat) : Int := (settingRules.getD i (0, 0, 0)).2.1

/-- Column 2 of row `i` of `settingRules` (the maximum). -/
def ruleMax (i : Nat) : Int := (settingRules.getD i (0, 0, 0)).2.2

/-- The global `hallCenterMargin` (a `byte` initialised to 4 and never written). -/
def hallCenterMargin : Int := 4

/-- The global variables of `main.cpp`, together with the persisted EEPROM record.
`eepromPuts` counts the calls of `EEPROM.put` and `sent` lists the throttle values handed
to `radio.write`, oldest first; both are bookkeeping that the program itself cannot read. -/
structure Globals where
  gearRatio : Option ℚ := none
  ratioRpmSpeed : Option ℚ := none
  ratioPulseDistance : Option ℚ := none
  data : vescValues := ⟨0, 0, 0, 0⟩
  remoteSettings : settings := ⟨0, 0, 0, 0, 0, 0, 0, 0, 0, 0, 0⟩
  hallMeasurement : Int := 0
  throttle : Int := 0
  connected : Bool := false
  failCount : Int := 0
  lastTransmission : Nat := 0
  changeSettings : Bool := false
  changeSelectedSetting : Bool := false
  settingsLoopFlag : Bool := false
  settingsChangeFlag : Bool := false
  settingsChangeValueFlag : Bool := false
  /-- Modelled from the spec: the selection index of the settings menu. `main.cpp` uses
  `currentSetting` without declaring it; the spec calls it `selectionIndex`, an index into
  the eleven settings, and the menu starts at index 0. -/
  currentSetting : Nat := 0
  eeprom : settings := ⟨255, 255, 255, 255, 255, 255, 255, 255, -1, -1, -1⟩
  eepromPuts : Nat := 0
  sent : List Int := []

/-! ## Throttle conditioning -/

/-- The sampling loop at the head of `calculateThrottlePosition`: `total` accumulates ten
calls of `analogRead` in an `int`, and `hallMeasurement = total / 10` is stored in a
`short`. The argument gives the value of the `i`-th read. -/
def hallAverage (analogRead : Nat → Int) : Int :=
  wrap16 (Int.tdiv ((List.range 10).foldl (fun total i => wrap16 (total + analogRead i)) 0) 10)

/-- Lines 437 to 441 of `calculateThrottlePosition`: the branch on
`hallMeasurement >= centerHallValue`, each side a `map` whose `long` result goes through
`constrain` and is stored in the `short` variable `throttle`. -/
def mapThrottle (s : settings) (hallMeasurement : Int) : Option Int :=
  if hallMeasurement ≥ s.centerHallValue then
    (map hallMeasurement s.centerHallValue s.maxHallValue 127 255).map
      (fun m => wrap16 (constrain m 127 255))
  else
    (map hallMeasurement s.minHallValue s.centerHallValue 0 127).map
      (fun m => wrap16 (constrain m 0 127))

/-- Lines 444 to 446 of `calculateThrottlePosition` ("removeing center noise"):
`if (abs(throttle - 127) < hallCenterMargin) throttle = 127;`. -/
def removeCenterNoise (throttle : Int) : Int :=
  if abs (wrap16 (throttle - 127)) < hallCenterMargin then 127 else throttle

/-- The function `calculateThrottlePosition`. State in, state out; `none` when `map`
divides by zero. -/
def calculateThrottlePosition (g : Globals) (analogRead : Nat → Int) : Option Globals :=
  let hallMeasurement := hallAverage analogRead
  (mapThrottle g.remoteSettings hallMeasurement).map (fun throttle =>
    { g with hallMeasurement := hallMeasurement, throttle := removeCenterNoise throttle })

/-! ## Settings store -/

/-- The function `getSettingValue`: a `switch` over the cases 0..10 that reads one field of
`remoteSettings` into an `int`. For any other index the local `value` is returned
uninitialised, which is `none` here. Indices are carried as `Nat`: the callers pass a
loop counter or the menu selection, and a negative index would take the same
no-case path as an index above 10. -/
def getSettingValue (g : Globals) (index : Nat) : Option Int :=
  match index with
  | 0 => some g.remoteSettings.triggerMode
  | 1 => some g.remoteSettings.batteryType
  | 2 => some g.remoteSettings.batteryCells
  | 3 => some g.remoteSettings.motorPoles
  | 4 => some g.remoteSettings.motorPulley
  | 5 => some g.remoteSettings.wheelPulley
  | 6 => some g.remoteSettings.wheelDiameter
  | 7 => some g.remoteSettings.useUart
  | 8 => some g.remoteSettings.minHallValue
  | 9 => some g.remoteSettings.centerHallValue
  | 10 => some g.remoteSettings.maxHallValue
  | _ => none

/-- The function `setSettingValue`: a `switch` over the cases 0..10 that assigns the `int`
argument to one field of `remoteSettings`, with the implicit conversion to the type of
the field; any other index changes nothing. -/
def setSettingValue (g : Globals) (index : Nat) (value : Int) : Globals :=
  match index with
  | 0 => { g with remoteSettings := { g.remoteSettings with triggerMode := toByte value } }
  | 1 => { g with remoteSettings := { g.remoteSettings with batteryType := toByte value } }
  | 2 => { g with remoteSettings := { g.remoteSettings with batteryCells := toByte value } }
  | 3 => { g with remoteSettings := { g.remoteSettings with motorPoles := toByte value } }
  | 4 => { g with remoteSettings := { g.remoteSettings with motorPulley := toByte value } }
  | 5 => { g with remoteSettings := { g.remoteSettings with wheelPulley := toByte value } }
  | 6 => { g with remoteSettings := { g.remoteSettings with wheelDiameter := toByte value } }
  | 7 => { g with remoteSettings := { g.remoteSettings with useUart := toBool value } }
  | 8 => { g with remoteSettings := { g.remoteSettings with minHallValue := value } }
  | 9 => { g with remoteSettings := { g.remoteSettings with centerHallValue := value } }
  | 10 => { g with remoteSettings := { g.remoteSettings with maxHallValue := value } }
  | _ => g

/-- The function `inRange`: `(minimum <= val) && (val <= maximum)`. -/
def inRange (val minimum maximum : Int) : Bool :=
  decide (minimum ≤ val) && decide (val ≤ maximum)

/-- A `float` division, idealised: a zero divisor or an operand that is already not
finite gives `none`. -/
def floatDiv (a : Option ℚ) (b : ℚ) : Option ℚ :=
  if b = 0 then none else a.map (fun x => x / b)

/-- The function `calculateRatios`: three `float` quotients of the motor and wheel
settings. -/
def calculateRatios (g : Globals) : Globals :=
  let s := g.remoteSettings
  let gearRatio := floatDiv (some (s.motorPulley : ℚ)) (s.wheelPulley : ℚ)
  { g with
    gearRatio := gearRatio
    ratioRpmSpeed :=
      floatDiv (gearRatio.map (fun r => r * 60 * (s.wheelDiameter : ℚ) * (314156 / 100000)))
        (((s.motorPoles : ℚ) / 2) * 1000000)
    ratioPulseDistance :=
      floatDiv (gearRatio.map (fun r => r * (s.wheelDiameter : ℚ) * (314156 / 100000)))
        (((s.motorPoles : ℚ) * 3) * 1000000) }

/-- The function `updateEEPROMSettings`: `EEPROM.put(0, remoteSettings)` and then
`calculateRatios()`. -/
def updateEEPROMSettings (g : Globals) : Globals :=
  calculateRatios { g with eeprom := g.remoteSettings, eepromPuts := g.eepromPuts + 1 }

/-- The function `setDefaultEEPROMSettings`: every setting gets its default from column 0
of `settingRules`, then the record is written. -/
def setDefaultEEPROMSettings (g : Globals) : Globals :=
  updateEEPROMSettings
    ((List.range numOfSettings).foldl (fun acc i => setSettingValue acc i (ruleDefault i)) g)

/-- The call `EEPROM.get(0, remoteSettings)`: the persisted record overwrites
`remoteSettings`. -/
def eepromGet (g : Globals) : Globals :=
  { g with remoteSettings := g.eeprom }

/-- The body of the `for` loop of `loadEEPROMSettings`, on the pair of the globals and the
local `rewriteSettings`. -/
def loadCheck (acc : Globals × Bool) (i : Nat) : Option (Globals × Bool) :=
  (getSettingValue acc.1 i).map (fun val =>
    if !inRange val (ruleMin i) (ruleMax i) then
      (setSettingValue acc.1 i (ruleDefault i), true)
    else acc)

/-- The function `loadEEPROMSettings`: `EEPROM.get(0, remoteSettings)`, the validation loop
over `i = 0 .. numOfSettings - 1`, then `updateEEPROMSettings()` when `rewriteSettings`
was set and `calculateRatios()` otherwise. -/
def loadEEPROMSettings (g : Globals) : Option Globals :=
  ((List.range numOfSettings).foldlM loadCheck (eepromGet g, false)).map
    (fun acc => if acc.2 = true then updateEEPROMSettings acc.1 else calculateRatios acc.1)

/-- Setting `index` of `remoteSettings` fails the test of the validation loop:
`! inRange(val, settingRules[index][1], settingRules[index][2])`. -/
def damaged (g : Globals) (index : Nat) : Bool :=
  match getSettingValue g index with
  | some val => !inRange val (ruleMin index) (ruleMax index)
  | none => false

/-- What field `index` of `struct settings` holds after an `int` was assigned to it: the
value modulo 256 in the `byte` fields 0..6, 0 or 1 in the `bool` field 7, the value itself
in the `int` fields 8..10. -/
def stored (index : Nat) (value : Int) : Int :=
  if index ≤ 6 then toByte value else if index = 7 then toBool value else value

/-! ## Radio link -/

/-- What the outside world contributes to one call of `transmitToVesc`: the values of the
two calls of `millis()`, the result of `radio.write`, and the acknowledgement payloads
that the drain loop reads (in order) before `radio.isAckPayloadAvailable()` turns false. -/
structure Attempt where
  now : Nat
  stamp : Nat
  sendSuccess : Bool
  acks : List vescValues

/-- The guard of `transmitToVesc`: `millis() - lastTransmission >= 50`, in `unsigned long`
arithmetic. -/
def gateOpen (g : Globals) (now : Nat) : Bool :=
  decide ((((now : Int) - (g.lastTransmission : Int)) % 4294967296) ≥ 50)

/-- The function `transmitToVesc`. -/
def transmitToVesc (g : Globals) (a : Attempt) : Globals :=
  if gateOpen g a.now then
    let failCount := if a.sendSuccess = true then 0 else wrap16 (g.failCount + 1)
    { g with
      lastTransmission := a.stamp % 4294967296
      sent := g.sent ++ [g.throttle]
      data := a.acks.foldl (fun _ payload => payload) g.data
      failCount := failCount
      connected := if failCount < 5 then true else false }
  else g

/-- A run of consecutive calls of `transmitToVesc`, one per element of the list. -/
def transmitAll (g : Globals) (attempts : List Attempt) : Globals :=
  attempts.foldl transmitToVesc g

/-- Every call of the run passes the 50 ms gate and its send reports failure. -/
def allGatedFailures : Globals → List Attempt → Prop
  | _, [] => True
  | g, a :: rest =>
    gateOpen g a.now = true ∧ a.sendSuccess = false ∧ allGatedFailures (transmitToVesc g a) rest

/-- A streak of `n` attempts 50 ms apart, the first at time `start + 50`, all of which fail
and receive no acknowledgement payload. -/
def failureStreak (start : Nat) : Nat → List Attempt
  | 0 => []
  | n + 1 => ⟨start + 50, start + 50, false, []⟩ :: failureStreak (start + 50) n

/-- A state holding the defaults of `settingRules` in fields 0..7 and the given throttle
calibration in fields 8..10; everything else as initialised at start-up. -/
def withCalibration (minHall centerHall maxHall : Int) : Globals :=
  { remoteSettings := ⟨0, 0, 10, 14, 15, 40, 83, 1, minHall, centerHall, maxHall⟩ }

/-- The state at power-up (every global as initialised) with the given record in EEPROM. -/
def persisted (record : settings) : Globals :=
  { eeprom := record }

/-- A persisted record whose `triggerMode` (5) is outside its range 0..3 while every other
entry is in range; `batteryCells` holds 12, which is not its default 10. -/
def damagedRecord : settings := ⟨5, 0, 12, 14, 15, 40, 83, 1, 0, 512, 1023⟩

/-- The rule-table defaults, except that `wheelPulley` is 0. -/
def zeroWheelPulleyRecord : settings := ⟨0, 0, 10, 14, 15, 0, 83, 1, 0, 512, 1023⟩

/-- The globals as the initialisers of `main.cpp` set them, before `setup()` runs. -/
def initialGlobals : Globals := {}

/-- Some call of the run passes the 50 ms gate. -/
def anyGated : Globals → List Attempt → Bool
  | _, [] => false
  | g, a :: rest => gateOpen g a.now || anyGated (transmitToVesc g a) rest

/-! ## Trigger, settings menu and main loop -/

/-- The Arduino constant `LOW`. -/
def LOW : Int := 0

/-- The function `triggerActive`: `digitalRead(triggerPin) == LOW`. The argument is the
value that `digitalRead` returns. -/
def triggerActive (digitalRead : Int) : Bool :=
  if digitalRead = LOW then true else false

/-- Lines 240 to 253 of `controlSettingsMenu`: the trigger with its one-shot latch
`settingsChangeFlag`. On the first step with the trigger active the settings are written
to the EEPROM when `changeSelectedSetting` is set, then `changeSelectedSetting` is
toggled. -/
def menuTrigger (g : Globals) (digitalRead : Int) : Globals :=
  if triggerActive digitalRead = true then
    if g.settingsChangeFlag = false then
      let g1 := if g.changeSelectedSetting = true then updateEEPROMSettings g else g
      { g1 with changeSelectedSetting := !g1.changeSelectedSetting, settingsChangeFlag := true }
    else g
  else { g with settingsChangeFlag := false }

/-- Lines 255 to 288 of `controlSettingsMenu`: the throttle axis with its latch
`settingsLoopFlag`. The thresholds are computed in 16-bit `int` arithmetic. The result is
`none` when `getSettingValue` is reached with a selection outside 0..10. -/
def menuAxis (g : Globals) : Option Globals :=
  if g.hallMeasurement ≥ wrap16 (g.remoteSettings.maxHallValue - 150)
      ∧ g.settingsLoopFlag = false then
    if g.changeSelectedSetting = true then
      (getSettingValue g g.currentSetting).map (fun v =>
        let val := wrap16 (v + 1)
        if inRange val (ruleMin g.currentSetting) (ruleMax g.currentSetting) = true then
          { setSettingValue g g.currentSetting val with settingsLoopFlag := true }
        else g)
    else
      some (if g.currentSetting ≠ 0 then
        { g with currentSetting := g.currentSetting - 1, settingsLoopFlag := true }
      else g)
  else if g.hallMeasurement ≤ wrap16 (g.remoteSettings.minHallValue + 150)
      ∧ g.settingsLoopFlag = false then
    if g.changeSelectedSetting = true then
      (getSettingValue g g.currentSetting).map (fun v =>
        let val := wrap16 (v - 1)
        if inRange val (ruleMin g.currentSetting) (ruleMax g.currentSetting) = true then
          { setSettingValue g g.currentSetting val with settingsLoopFlag := true }
        else g)
    else
      some (if g.currentSetting < numOfSettings - 1 then
        { g with currentSetting := g.currentSetting + 1, settingsLoopFlag := true }
      else g)
  else if inRange g.hallMeasurement (wrap16 (g.remoteSettings.centerHallValue - 50))
      (wrap16 (g.remoteSettings.centerHallValue + 50)) = true then
    some { g with settingsLoopFlag := false }
  else some g

/-- The function `controlSettingsMenu`: the trigger part, then the axis part. -/
def controlSettingsMenu (g : Globals) (digitalRead : Int) : Option Globals :=
  menuAxis (menuTrigger g digitalRead)

/-- One menu step as the main loop takes it: `hallMeasurement` holds the reading that
`calculateThrottlePosition` has just stored, then `controlSettingsMenu` runs. -/
def menuStep (g : Globals) (digitalRead hall : Int) : Option Globals :=
  controlSettingsMenu { g with hallMeasurement := hall } digitalRead

/-- Consecutive menu steps, one per pair of a trigger level and an axis reading. -/
def menuRun (g : Globals) : List (Int × Int) → Option Globals
  | [] => some g
  | step :: rest => (menuStep g step.1 step.2).bind (fun g1 => menuRun g1 rest)

/-- The function `loop`: `calculateThrottlePosition()`, then the settings menu when
`changeSettings` is set, else the drive branch, which forces `throttle = 127` unless the
trigger is active and calls `transmitToVesc()`. The closing `ui_updateMainDisplay()` only
draws and leaves these globals alone. The arguments are what the analog pin, the trigger
pin and the radio and clock contribute to this iteration. -/
def loop (g : Globals) (analogRead : Nat → Int) (digitalRead : Int) (a : Attempt) :
    Option Globals :=
  (calculateThrottlePosition g analogRead).bind (fun g1 =>
    if g1.changeSettings = true then controlSettingsMenu g1 digitalRead
    else
      let g2 := if triggerActive digitalRead = true then { g1 with throttle := g1.throttle }
        else { g1 with throttle := 127 }
      some (transmitToVesc g2 a))

/-- The Idle menu state of the C14 scenario: default calibration 0/512/1023, selection
index 3, both latches clear. -/
def idleAtThree : Globals :=
  { withCalibration 0 512 1023 with changeSettings := true, currentSetting := 3 }

/-- The menu is Idle with the default calibration 0/512/1023, the given selection index and
the given state of the axis latch `settingsLoopFlag`. -/
def idleMenuAt (g : Globals) (index : Nat) (latch : Bool) : Prop :=
  g.remoteSettings.minHallValue = 0 ∧ g.remoteSettings.centerHallValue = 512 ∧
    g.remoteSettings.maxHallValue = 1023 ∧ g.changeSelectedSetting = false ∧
    g.currentSetting = index ∧ g.settingsLoopFlag = latch

/-- The trigger pin level `HIGH` (trigger released). -/
def HIGH : Int := 1

/-- Menu steps with the trigger released, one per axis reading. -/
def released (readings : List Int) : List (Int × Int) :=
  readings.map (fun x => (HIGH, x))

/-- Menu steps with the trigger held, one per axis reading. -/
def held (readings : List Int) : List (Int × Int) :=
  readings.map (fun x => (LOW, x))

/-- A menu state in Editing at index 3 (`motorPoles`), whose value was raised to 16 and is
not yet saved, with the axis at the up extreme and both latches clear. -/
def editingMotorPoles : Globals :=
  { remoteSettings := ⟨0, 0, 10, 16, 15, 40, 83, 1, 0, 512, 1023⟩
    eeprom := ⟨0, 0, 10, 14, 15, 40, 83, 1, 0, 512, 1023⟩
    changeSettings := true
    changeSelectedSetting := true
    currentSetting := 3
    hallMeasurement := 1000 }

theorem wrap16_of_range {x : Int} (h1 : -32768 ≤ x) (h2 : x ≤ 32767) : wrap16 x = x := by
  unfold wrap16; omega

theorem wrap16_range (x : Int) : -32768 ≤ wrap16 x ∧ wrap16 x ≤ 32767 := by
  unfold wrap16; omega

theorem wrap32_of_range {x : Int} (h1 : -2147483648 ≤ x) (h2 : x ≤ 2147483647) :
    wrap32 x = x := by
  unfold wrap32; omega

theorem hallAverage_range (analogRead : Nat → Int) :
    -32768 ≤ hallAverage analogRead ∧ hallAverage analogRead ≤ 32767 :=
  wrap16_range _

theorem tdiv_neg_num {a d : Int} (ha : a ≤ 0) (hd : 0 < d) : Int.tdiv a d = -((-a) / d) := by
  have h : Int.tdiv (-(-a)) d = -(Int.tdiv (-a) d) := Int.neg_tdiv (-a) d
  rw [neg_neg] at h
  rw [h, Int.tdiv_eq_ediv (by omega) (by omega)]

theorem tdiv_mono {a b d : Int} (hab : a ≤ b) (hd : 0 < d) : Int.tdiv a d ≤ Int.tdiv b d := by
  rcases le_or_lt 0 a with ha | ha
  · rw [Int.tdiv_eq_ediv ha hd.le, Int.tdiv_eq_ediv (ha.trans hab) hd.le]
    exact Int.ediv_le_ediv hd hab
  · rcases le_or_lt 0 b with hb | hb
    · rw [tdiv_neg_num ha.le hd, Int.tdiv_eq_ediv hb hd.le]
      have h1 : 0 ≤ (-a) / d := Int.ediv_nonneg (by omega) hd.le
      have h2 : 0 ≤ b / d := Int.ediv_nonneg hb hd.le
      omega
    · rw [tdiv_neg_num ha.le hd, tdiv_neg_num hb.le hd]
      have := Int.ediv_le_ediv hd (show -b ≤ -a by omega)
      omega

/-- Bounds on a truncated quotient by a positive divisor. -/
theorem tdiv_bounds {a d : Int} (hd : 0 < d) :
    -(if a < 0 then -a else a) ≤ Int.tdiv a d ∧ Int.tdiv a d ≤ (if a < 0 then -a else a) := by
  rcases le_or_lt 0 a with ha | ha
  · rw [Int.tdiv_eq_ediv ha hd.le, if_neg (by omega)]
    have h1 : 0 ≤ a / d := Int.ediv_nonneg ha hd.le
    have h2 : a / d ≤ a := Int.ediv_le_self d ha
    omega
  · rw [tdiv_neg_num ha.le hd, if_pos ha]
    have h1 : 0 ≤ (-a) / d := Int.ediv_nonneg (by omega) hd.le
    have h2 : (-a) / d ≤ -a := Int.ediv_le_self d (by omega)
    omega

theorem constrain_bounds (amt : Int) {low high : Int} (h : low ≤ high) :
    low ≤ constrain amt low high ∧ constrain amt low high ≤ high := by
  unfold constrain; split_ifs <;> omega

theorem constrain_mono {a b low high : Int} (hlh : low ≤ high) (h : a ≤ b) :
    constrain a low high ≤ constrain b low high := by
  unfold constrain; split_ifs <;> omega

/-- On a stored throttle in 0..255 the deadband test is the plain `|t - 127| < 4`. -/
theorem removeCenterNoise_eq {t : Int} (h0 : 0 ≤ t) (h1 : t ≤ 255) :
    removeCenterNoise t = if |t - 127| < 4 then 127 else t := by
  unfold removeCenterNoise abs hallCenterMargin
  rw [wrap16_of_range (by omega) (by omega)]
  by_cases hp : t - 127 > 0
  · rw [if_pos hp, abs_of_pos hp]
  · rw [if_neg hp, wrap16_of_range (by omega) (by omega), abs_of_nonpos (by omega)]

theorem removeCenterNoise_mono {a b : Int} (ha : 0 ≤ a) (hb : b ≤ 255) (h : a ≤ b) :
    removeCenterNoise a ≤ removeCenterNoise b := by
  rw [removeCenterNoise_eq ha (by omega), removeCenterNoise_eq (by omega) hb]
  split_ifs with h1 h2 h2
  · exact le_refl _
  · rw [abs_lt] at h1; rw [abs_lt] at h2; omega
  · rw [abs_lt] at h1; rw [abs_lt] at h2; omega
  · exact h

/-- With 16-bit operands and a non-zero divisor no `long` operation of `map` wraps. -/
theorem map_eq {x a b lo hi : Int} (hx : -32768 ≤ x ∧ x ≤ 32767) (ha : -32768 ≤ a ∧ a ≤ 32767)
    (hb : -32768 ≤ b ∧ b ≤ 32767) (hlo : 0 ≤ lo ∧ lo ≤ 255) (hhi : 0 ≤ hi ∧ hi ≤ 255)
    (hab : a < b) :
    map x a b lo hi = some (Int.tdiv ((x - a) * (hi - lo)) (b - a) + lo) := by
  unfold map
  have hd : wrap32 (b - a) = b - a := wrap32_of_range (by omega) (by omega)
  have h1 : wrap32 (x - a) = x - a := wrap32_of_range (by omega) (by omega)
  have h2 : wrap32 (hi - lo) = hi - lo := wrap32_of_range (by omega) (by omega)
  have hp : -16711425 ≤ (x - a) * (hi - lo) ∧ (x - a) * (hi - lo) ≤ 16711425 := by
    constructor <;> nlinarith [hx.1, hx.2, ha.1, ha.2, hlo.1, hlo.2, hhi.1, hhi.2]
  have h3 : wrap32 ((x - a) * (hi - lo)) = (x - a) * (hi - lo) :=
    wrap32_of_range (by omega) (by omega)
  have hq := tdiv_bounds (a := (x - a) * (hi - lo)) (d := b - a) (by omega)
  have h4 : wrap32 (Int.tdiv ((x - a) * (hi - lo)) (b - a)) =
      Int.tdiv ((x - a) * (hi - lo)) (b - a) := by
    apply wrap32_of_range <;> split_ifs at hq <;> omega
  have h5 : wrap32 (Int.tdiv ((x - a) * (hi - lo)) (b - a) + lo) =
      Int.tdiv ((x - a) * (hi - lo)) (b - a) + lo := by
    apply wrap32_of_range <;> split_ifs at hq <;> omega
  rw [hd, h1, h2, h3, h4, h5, if_neg (by omega)]

/-! ## Throttle conditioning: the value of `mapThrottle` -/

theorem mapThrottle_upper {s : settings} {r : Int} (hr : -32768 ≤ r ∧ r ≤ 32767)
    (hc : -32768 ≤ s.centerHallValue) (hmax : s.maxHallValue ≤ 32767)
    (hhi : s.centerHallValue < s.maxHallValue) (hrc : s.centerHallValue ≤ r) :
    mapThrottle s r = some (constrain
      (Int.tdiv ((r - s.centerHallValue) * 128) (s.maxHallValue - s.centerHallValue) + 127)
      127 255) := by
  unfold mapThrottle
  rw [if_pos (by simpa using hrc),
    map_eq hr ⟨hc, by omega⟩ ⟨by omega, hmax⟩ (by omega) (by omega) hhi]
  have hb := constrain_bounds
    (Int.tdiv ((r - s.centerHallValue) * (255 - 127)) (s.maxHallValue - s.centerHallValue) + 127)
    (show (127 : Int) ≤ 255 by omega)
  simp only [Option.map_some']
  rw [wrap16_of_range (by omega) (by omega)]
  norm_num

theorem mapThrottle_lower {s : settings} {r : Int} (hr : -32768 ≤ r ∧ r ≤ 32767)
    (hmin : -32768 ≤ s.minHallValue) (hc : s.centerHallValue ≤ 32767)
    (hlo : s.minHallValue < s.centerHallValue) (hrc : r < s.centerHallValue) :
    mapThrottle s r = some (constrain
      (Int.tdiv ((r - s.minHallValue) * 127) (s.centerHallValue - s.minHallValue)) 0 127) := by
  unfold mapThrottle
  rw [if_neg (by simpa using hrc),
    map_eq hr ⟨hmin, by omega⟩ ⟨by omega, hc⟩ (by omega) (by omega) hlo]
  have hb := constrain_bounds
    (Int.tdiv ((r - s.minHallValue) * (127 - 0)) (s.centerHallValue - s.minHallValue) + 0)
    (show (0 : Int) ≤ 127 by omega)
  simp only [Option.map_some']
  rw [wrap16_of_range (by omega) (by omega)]
  norm_num

/-- For a well-ordered 16-bit calibration `mapThrottle` returns a value, at least 127 on the
upper branch and at most 127 on the lower one. -/
theorem mapThrottle_some {s : settings} {r : Int} (hr : -32768 ≤ r ∧ r ≤ 32767)
    (hmin : -32768 ≤ s.minHallValue) (hmax : s.maxHallValue ≤ 32767)
    (hlo : s.minHallValue < s.centerHallValue) (hhi : s.centerHallValue < s.maxHallValue) :
    ∃ m, mapThrottle s r = some m ∧ 0 ≤ m ∧ m ≤ 255 ∧
      (s.centerHallValue ≤ r → 127 ≤ m) ∧ (r < s.centerHallValue → m ≤ 127) := by
  rcases le_or_lt s.centerHallValue r with hrc | hrc
  · refine ⟨_, mapThrottle_upper hr (by omega) hmax hhi hrc, ?_⟩
    have hb := constrain_bounds
      (Int.tdiv ((r - s.centerHallValue) * 128) (s.maxHallValue - s.centerHallValue) + 127)
      (show (127 : Int) ≤ 255 by omega)
    refine ⟨by omega, hb.2, fun _ => hb.1, fun h => ?_⟩
    omega
  · refine ⟨_, mapThrottle_lower hr hmin (by omega) hlo hrc, ?_⟩
    have hb := constrain_bounds
      (Int.tdiv ((r - s.minHallValue) * 127) (s.centerHallValue - s.minHallValue))
      (show (0 : Int) ≤ 127 by omega)
    refine ⟨hb.1, by omega, fun h => ?_, fun _ => hb.2⟩
    omega

theorem mapThrottle_mono {s : settings} {r1 r2 : Int} (hr1 : -32768 ≤ r1 ∧ r1 ≤ 32767)
    (hr2 : -32768 ≤ r2 ∧ r2 ≤ 32767)
    (hmin : -32768 ≤ s.minHallValue) (hmax : s.maxHallValue ≤ 32767)
    (hlo : s.minHallValue < s.centerHallValue) (hhi : s.centerHallValue < s.maxHallValue)
    (h : r1 ≤ r2) :
    ∃ m1 m2, mapThrottle s r1 = some m1 ∧ mapThrottle s r2 = some m2 ∧
      0 ≤ m1 ∧ m1 ≤ m2 ∧ m2 ≤ 255 := by
  obtain ⟨m1, e1, a1, b1, u1, l1⟩ := mapThrottle_some hr1 hmin hmax hlo hhi
  obtain ⟨m2, e2, a2, b2, u2, l2⟩ := mapThrottle_some hr2 hmin hmax hlo hhi
  refine ⟨m1, m2, e1, e2, a1, ?_, b2⟩
  rcases le_or_lt s.centerHallValue r1 with hc1 | hc1
  · have hc2 : s.centerHallValue ≤ r2 := hc1.trans h
    rw [mapThrottle_upper hr1 (by omega) hmax hhi hc1] at e1
    rw [mapThrottle_upper hr2 (by omega) hmax hhi hc2] at e2
    cases e1; cases e2
    apply constrain_mono (by omega)
    have := tdiv_mono (a := (r1 - s.centerHallValue) * 128)
      (b := (r2 - s.centerHallValue) * 128)
      (d := s.maxHallValue - s.centerHallValue) (by omega) (by omega)
    omega
  · rcases le_or_lt s.centerHallValue r2 with hc2 | hc2
    · have := u2 hc2
      have := l1 hc1
      omega
    · rw [mapThrottle_lower hr1 hmin (by omega) hlo hc1] at e1
      rw [mapThrottle_lower hr2 hmin (by omega) hlo hc2] at e2
      cases e1; cases e2
      apply constrain_mono (by omega)
      exact tdiv_mono (by omega) (by omega)

/-- With 16-bit operands and inverted bounds `b < a` the divisor of `map` is negative and
no `long` operation wraps. -/
theorem map_eq_inverted {x a b lo hi : Int} (hx : -32768 ≤ x ∧ x ≤ 32767)
    (ha : -32768 ≤ a ∧ a ≤ 32767) (hb : -32768 ≤ b ∧ b ≤ 32767) (hlo : 0 ≤ lo ∧ lo ≤ 255)
    (hhi : 0 ≤ hi ∧ hi ≤ 255) (hba : b < a) :
    map x a b lo hi = some (-(Int.tdiv ((x - a) * (hi - lo)) (a - b)) + lo) := by
  unfold map
  have hd : wrap32 (b - a) = -(a - b) := by
    rw [wrap32_of_range (by omega) (by omega)]; ring
  have h1 : wrap32 (x - a) = x - a := wrap32_of_range (by omega) (by omega)
  have h2 : wrap32 (hi - lo) = hi - lo := wrap32_of_range (by omega) (by omega)
  have hp : -16711425 ≤ (x - a) * (hi - lo) ∧ (x - a) * (hi - lo) ≤ 16711425 := by
    constructor <;> nlinarith [hx.1, hx.2, ha.1, ha.2, hlo.1, hlo.2, hhi.1, hhi.2]
  have h3 : wrap32 ((x - a) * (hi - lo)) = (x - a) * (hi - lo) :=
    wrap32_of_range (by omega) (by omega)
  have hq := tdiv_bounds (a := (x - a) * (hi - lo)) (d := a - b) (by omega)
  have h4 : wrap32 (-(Int.tdiv ((x - a) * (hi - lo)) (a - b))) =
      -(Int.tdiv ((x - a) * (hi - lo)) (a - b)) := by
    apply wrap32_of_range <;> split_ifs at hq <;> omega
  have h5 : wrap32 (-(Int.tdiv ((x - a) * (hi - lo)) (a - b)) + lo) =
      -(Int.tdiv ((x - a) * (hi - lo)) (a - b)) + lo := by
    apply wrap32_of_range <;> split_ifs at hq <;> omega
  rw [hd, h1, h2, h3, Int.tdiv_neg, h4, h5, if_neg (by omega)]

theorem map_none {x a lo hi : Int} : map x a a lo hi = none := by
  unfold map wrap32
  simp

/-- The stored throttle after the deadband, for an input in 0..255: it stays in 0..255 and
avoids the values within 1..3 of 127. -/
theorem removeCenterNoise_range {t : Int} (h0 : 0 ≤ t) (h1 : t ≤ 255) :
    0 ≤ removeCenterNoise t ∧ removeCenterNoise t ≤ 255 ∧
      (removeCenterNoise t ≤ 123 ∨ removeCenterNoise t = 127 ∨ 131 ≤ removeCenterNoise t) := by
  rw [removeCenterNoise_eq h0 h1]
  split_ifs with h
  · omega
  · rw [abs_lt] at h; omega

theorem calculateThrottlePosition_eq (g : Globals) (analogRead : Nat → Int) {m : Int}
    (h : mapThrottle g.remoteSettings (hallAverage analogRead) = some m) :
    calculateThrottlePosition g analogRead =
      some { g with hallMeasurement := hallAverage analogRead,
                    throttle := removeCenterNoise m } := by
  unfold calculateThrottlePosition
  simp only [h, Option.map_some']

/-! ## Throttle conditioning: the claims -/

/-- C1. For a calibration with `0 ≤ minHallValue < centerHallValue < maxHallValue ≤ 1023`
and samples whose average lies in 0..1023, `calculateThrottlePosition` returns, the mapped
value `m` is in 0..255, the stored throttle is 127 when `|m - 127| < 4` and `m` otherwise,
so it lies in 0..255 and is at most 123, equal to 127, or at least 131. -/
theorem calculateThrottlePosition_range_deadband (g : Globals) (analogRead : Nat → Int)
    (hmin : 0 ≤ g.remoteSettings.minHallValue) (hmax : g.remoteSettings.maxHallValue ≤ 1023)
    (hlo : g.remoteSettings.minHallValue < g.remoteSettings.centerHallValue)
    (hhi : g.remoteSettings.centerHallValue < g.remoteSettings.maxHallValue)
    (hr : 0 ≤ hallAverage analogRead ∧ hallAverage analogRead ≤ 1023) :
    ∃ m g', mapThrottle g.remoteSettings (hallAverage analogRead) = some m ∧
      calculateThrottlePosition g analogRead = some g' ∧
      0 ≤ m ∧ m ≤ 255 ∧
      g'.throttle = (if |m - 127| < 4 then 127 else m) ∧
      0 ≤ g'.throttle ∧ g'.throttle ≤ 255 ∧
      ¬ (0 < |g'.throttle - 127| ∧ |g'.throttle - 127| < 4) ∧
      (g'.throttle ≤ 123 ∨ g'.throttle = 127 ∨ 131 ≤ g'.throttle) := by
  obtain ⟨m, hm, m0, m1, -, -⟩ :=
    mapThrottle_some (s := g.remoteSettings) (r := hallAverage analogRead)
      ⟨by omega, by omega⟩ (by omega) (by omega) hlo hhi
  have hn := removeCenterNoise_range m0 m1
  refine ⟨m, _, hm, calculateThrottlePosition_eq g analogRead hm, m0, m1, ?_, hn.1, hn.2.1,
    ?_, hn.2.2⟩
  · exact removeCenterNoise_eq m0 m1
  · show ¬ (0 < |removeCenterNoise m - 127| ∧ |removeCenterNoise m - 127| < 4)
    rintro ⟨hpos, hlt⟩
    rw [abs_lt] at hlt
    rw [abs_pos] at hpos
    rcases hn.2.2 with h | h | h
    · omega
    · exact hpos (by omega)
    · omega

/-- C2. For a calibration with `minHallValue < centerHallValue < maxHallValue` (any 16-bit
values) and two sample sets whose averages satisfy `r1 ≤ r2`, both calls of
`calculateThrottlePosition` return and the throttle for `r1` is at most the throttle for
`r2`. -/
theorem calculateThrottlePosition_monotone (g : Globals) (read1 read2 : Nat → Int)
    (hmin : -32768 ≤ g.remoteSettings.minHallValue)
    (hmax : g.remoteSettings.maxHallValue ≤ 32767)
    (hlo : g.remoteSettings.minHallValue < g.remoteSettings.centerHallValue)
    (hhi : g.remoteSettings.centerHallValue < g.remoteSettings.maxHallValue)
    (hr : hallAverage read1 ≤ hallAverage read2) :
    ∃ g1 g2, calculateThrottlePosition g read1 = some g1 ∧
      calculateThrottlePosition g read2 = some g2 ∧ g1.throttle ≤ g2.throttle := by
  obtain ⟨m1, m2, e1, e2, h0, h12, h255⟩ :=
    mapThrottle_mono (hallAverage_range read1) (hallAverage_range read2) hmin hmax hlo hhi hr
  exact ⟨_, _, calculateThrottlePosition_eq g read1 e1, calculateThrottlePosition_eq g read2 e2,
    removeCenterNoise_mono h0 h255 h12⟩

/-- C3. For a calibration with `minHallValue < centerHallValue < maxHallValue` (any 16-bit
values), an average equal to `centerHallValue` gives throttle 127, an average equal to
`maxHallValue` gives 255 and an average equal to `minHallValue` gives 0. -/
theorem calculateThrottlePosition_anchors (g : Globals) (analogRead : Nat → Int)
    (hmin : -32768 ≤ g.remoteSettings.minHallValue)
    (hmax : g.remoteSettings.maxHallValue ≤ 32767)
    (hlo : g.remoteSettings.minHallValue < g.remoteSettings.centerHallValue)
    (hhi : g.remoteSettings.centerHallValue < g.remoteSettings.maxHallValue) :
    (hallAverage analogRead = g.remoteSettings.centerHallValue →
      (calculateThrottlePosition g analogRead).map Globals.throttle = some 127) ∧
    (hallAverage analogRead = g.remoteSettings.maxHallValue →
      (calculateThrottlePosition g analogRead).map Globals.throttle = some 255) ∧
    (hallAverage analogRead = g.remoteSettings.minHallValue →
      (calculateThrottlePosition g analogRead).map Globals.throttle = some 0) := by
  have hr := hallAverage_range analogRead
  have k127 : removeCenterNoise (constrain (0 + 127) 127 255) = 127 := by decide
  have k255 : removeCenterNoise (constrain (128 + 127) 127 255) = 255 := by decide
  have k0 : removeCenterNoise (constrain 0 0 127) = 0 := by decide
  refine ⟨fun h => ?_, fun h => ?_, fun h => ?_⟩
  · have e := mapThrottle_upper (s := g.remoteSettings) hr (by omega) hmax hhi h.ge
    rw [h, sub_self, zero_mul, Int.zero_tdiv, ← h] at e
    rw [calculateThrottlePosition_eq g analogRead e]
    exact congrArg some k127
  · have e := mapThrottle_upper (s := g.remoteSettings) hr (by omega) hmax hhi (by omega)
    rw [h, Int.mul_tdiv_cancel_left _ (show
      g.remoteSettings.maxHallValue - g.remoteSettings.centerHallValue ≠ 0 by omega), ← h] at e
    rw [calculateThrottlePosition_eq g analogRead e]
    exact congrArg some k255
  · have e := mapThrottle_lower (s := g.remoteSettings) hr hmin (by omega) hlo (by omega)
    rw [h, sub_self, zero_mul, Int.zero_tdiv, ← h] at e
    rw [calculateThrottlePosition_eq g analogRead e]
    exact congrArg some k0

/-- Without a guard on the calibration: for bounds in 0..1023, `calculateThrottlePosition`
divides by zero exactly when the two bounds of the branch it takes are equal, gives 127
when that branch is inverted, and whenever it returns the throttle is in 0..255 and at
most 123, equal to 127, or at least 131. -/
theorem calculateThrottlePosition_branch_cases (g : Globals) (analogRead : Nat → Int)
    (hmin : 0 ≤ g.remoteSettings.minHallValue ∧ g.remoteSettings.minHallValue ≤ 1023)
    (hcen : 0 ≤ g.remoteSettings.centerHallValue ∧ g.remoteSettings.centerHallValue ≤ 1023)
    (hmax : 0 ≤ g.remoteSettings.maxHallValue ∧ g.remoteSettings.maxHallValue ≤ 1023) :
    (calculateThrottlePosition g analogRead = none ↔
      (g.remoteSettings.centerHallValue ≤ hallAverage analogRead ∧
        g.remoteSettings.maxHallValue = g.remoteSettings.centerHallValue) ∨
      (hallAverage analogRead < g.remoteSettings.centerHallValue ∧
        g.remoteSettings.centerHallValue = g.remoteSettings.minHallValue)) ∧
    ((g.remoteSettings.centerHallValue ≤ hallAverage analogRead ∧
        g.remoteSettings.maxHallValue < g.remoteSettings.centerHallValue) ∨
      (hallAverage analogRead < g.remoteSettings.centerHallValue ∧
        g.remoteSettings.centerHallValue < g.remoteSettings.minHallValue) →
      (calculateThrottlePosition g analogRead).map Globals.throttle = some 127) ∧
    (∀ g', calculateThrottlePosition g analogRead = some g' →
      0 ≤ g'.throttle ∧ g'.throttle ≤ 255 ∧
        (g'.throttle ≤ 123 ∨ g'.throttle = 127 ∨ 131 ≤ g'.throttle)) := by
  have k127 : removeCenterNoise 127 = 127 := by decide
  have hr16 := hallAverage_range analogRead
  -- the value of `mapThrottle` in each of the six cases
  have hcases :
      (mapThrottle g.remoteSettings (hallAverage analogRead) = none ∧
        ((g.remoteSettings.centerHallValue ≤ hallAverage analogRead ∧
          g.remoteSettings.maxHallValue = g.remoteSettings.centerHallValue) ∨
        (hallAverage analogRead < g.remoteSettings.centerHallValue ∧
          g.remoteSettings.centerHallValue = g.remoteSettings.minHallValue))) ∨
      (mapThrottle g.remoteSettings (hallAverage analogRead) = some 127 ∧
        ((g.remoteSettings.centerHallValue ≤ hallAverage analogRead ∧
          g.remoteSettings.maxHallValue < g.remoteSettings.centerHallValue) ∨
        (hallAverage analogRead < g.remoteSettings.centerHallValue ∧
          g.remoteSettings.centerHallValue < g.remoteSettings.minHallValue))) ∨
      (∃ m, mapThrottle g.remoteSettings (hallAverage analogRead) = some m ∧
        0 ≤ m ∧ m ≤ 255 ∧
        ((g.remoteSettings.centerHallValue ≤ hallAverage analogRead ∧
          g.remoteSettings.centerHallValue < g.remoteSettings.maxHallValue) ∨
        (hallAverage analogRead < g.remoteSettings.centerHallValue ∧
          g.remoteSettings.minHallValue < g.remoteSettings.centerHallValue))) := by
    rcases le_or_lt g.remoteSettings.centerHallValue (hallAverage analogRead) with hrc | hrc
    · rcases lt_trichotomy g.remoteSettings.maxHallValue g.remoteSettings.centerHallValue
        with h | h | h
      · right; left
        refine ⟨?_, Or.inl ⟨hrc, h⟩⟩
        unfold mapThrottle
        rw [if_pos (by simpa using hrc),
          map_eq_inverted hr16 ⟨by omega, by omega⟩ ⟨by omega, by omega⟩ (by omega) (by omega) h]
        have hq : 0 ≤ Int.tdiv ((hallAverage analogRead - g.remoteSettings.centerHallValue) *
            (255 - 127)) (g.remoteSettings.centerHallValue - g.remoteSettings.maxHallValue) :=
          Int.tdiv_nonneg (by nlinarith) (by omega)
        simp only [Option.map_some']
        have hc : constrain (-(Int.tdiv ((hallAverage analogRead -
            g.remoteSettings.centerHallValue) * (255 - 127))
            (g.remoteSettings.centerHallValue - g.remoteSettings.maxHallValue)) + 127) 127 255
            = 127 := by
          unfold constrain; split_ifs <;> omega
        rw [hc]; rfl
      · left
        refine ⟨?_, Or.inl ⟨hrc, h⟩⟩
        unfold mapThrottle
        rw [if_pos (by simpa using hrc), h, map_none]; rfl
      · right; right
        have e := mapThrottle_upper (s := g.remoteSettings) hr16 (by omega) (by omega) h hrc
        have hb := constrain_bounds (Int.tdiv ((hallAverage analogRead -
          g.remoteSettings.centerHallValue) * 128)
          (g.remoteSettings.maxHallValue - g.remoteSettings.centerHallValue) + 127)
          (show (127 : Int) ≤ 255 by omega)
        exact ⟨_, e, by omega, hb.2, Or.inl ⟨hrc, h⟩⟩
    · rcases lt_trichotomy g.remoteSettings.centerHallValue g.remoteSettings.minHallValue
        with h | h | h
      · right; left
        refine ⟨?_, Or.inr ⟨hrc, h⟩⟩
        unfold mapThrottle
        rw [if_neg (by simpa using hrc),
          map_eq_inverted hr16 ⟨by omega, by omega⟩ ⟨by omega, by omega⟩ (by omega) (by omega) h]
        rw [tdiv_neg_num (by nlinarith) (by omega)]
        have hq : 127 ≤ (-((hallAverage analogRead - g.remoteSettings.minHallValue) *
            (127 - 0))) / (g.remoteSettings.minHallValue - g.remoteSettings.centerHallValue) :=
          Int.le_ediv_of_mul_le (by omega) (by nlinarith)
        simp only [Option.map_some']
        have hc : constrain (- -((-((hallAverage analogRead - g.remoteSettings.minHallValue) *
            (127 - 0))) / (g.remoteSettings.minHallValue - g.remoteSettings.centerHallValue))
            + 0) 0 127 = 127 := by
          unfold constrain; split_ifs <;> omega
        rw [hc]; rfl
      · left
        refine ⟨?_, Or.inr ⟨hrc, h⟩⟩
        unfold mapThrottle
        rw [if_neg (by simpa using hrc), h, map_none]; rfl
      · right; right
        have e := mapThrottle_lower (s := g.remoteSettings) hr16 (by omega) (by omega) h hrc
        have hb := constrain_bounds (Int.tdiv ((hallAverage analogRead -
          g.remoteSettings.minHallValue) * 127)
          (g.remoteSettings.centerHallValue - g.remoteSettings.minHallValue))
          (show (0 : Int) ≤ 127 by omega)
        exact ⟨_, e, hb.1, by omega, Or.inr ⟨hrc, h⟩⟩
  rcases hcases with ⟨e, hc⟩ | ⟨e, hc⟩ | ⟨m, e, m0, m1, hc⟩
  · have hnone : calculateThrottlePosition g analogRead = none := by
      unfold calculateThrottlePosition; simp only [e, Option.map_none']
    refine ⟨⟨fun _ => hc, fun _ => hnone⟩, fun h => ?_, fun g' hg => ?_⟩
    · omega
    · rw [hnone] at hg; cases hg
  · have hsome := calculateThrottlePosition_eq g analogRead e
    refine ⟨⟨fun h => ?_, fun h => ?_⟩, fun _ => ?_, fun g' hg => ?_⟩
    · rw [hsome] at h; cases h
    · omega
    · rw [hsome]; exact congrArg some k127
    · rw [hsome] at hg; cases hg
      exact removeCenterNoise_range (t := 127) (by omega) (by omega)
  · have hsome := calculateThrottlePosition_eq g analogRead e
    refine ⟨⟨fun h => ?_, fun h => ?_⟩, fun h => ?_, fun g' hg => ?_⟩
    · rw [hsome] at h; cases h
    · omega
    · omega
    · rw [hsome] at hg; cases hg
      exact removeCenterNoise_range m0 m1

/-- C1 at the default calibration 0/512/1023 and ten samples of 520: the mapped value 129
is inside the deadband and the throttle is 127. -/
theorem calculateThrottlePosition_range_deadband_witness :
    ∃ m g', mapThrottle (withCalibration 0 512 1023).remoteSettings
        (hallAverage (fun _ => 520)) = some m ∧
      calculateThrottlePosition (withCalibration 0 512 1023) (fun _ => 520) = some g' ∧
      0 ≤ m ∧ m ≤ 255 ∧
      g'.throttle = (if |m - 127| < 4 then 127 else m) ∧
      0 ≤ g'.throttle ∧ g'.throttle ≤ 255 ∧
      ¬ (0 < |g'.throttle - 127| ∧ |g'.throttle - 127| < 4) ∧
      (g'.throttle ≤ 123 ∨ g'.throttle = 127 ∨ 131 ≤ g'.throttle) :=
  calculateThrottlePosition_range_deadband (withCalibration 0 512 1023) (fun _ => 520)
    (by decide) (by decide) (by decide) (by decide) (by decide)

/-- C2 at the calibration 100/512/900 with averages 50 and 700. -/
theorem calculateThrottlePosition_monotone_witness :
    hallAverage (fun _ => 50) ≤ hallAverage (fun _ => 700) ∧
    ∃ g1 g2, calculateThrottlePosition (withCalibration 100 512 900) (fun _ => 50) = some g1 ∧
      calculateThrottlePosition (withCalibration 100 512 900) (fun _ => 700) = some g2 ∧
      g1.throttle ≤ g2.throttle :=
  ⟨by decide, calculateThrottlePosition_monotone (withCalibration 100 512 900)
    (fun _ => 50) (fun _ => 700) (by decide) (by decide) (by decide) (by decide) (by decide)⟩

/-- C3 at the calibration 100/512/900 with ten samples equal to the maximum. -/
theorem calculateThrottlePosition_anchors_witness :
    (calculateThrottlePosition (withCalibration 100 512 900) (fun _ => 900)).map
      Globals.throttle = some 255 :=
  (calculateThrottlePosition_anchors (withCalibration 100 512 900) (fun _ => 900)
    (by decide) (by decide) (by decide) (by decide)).2.1 (by decide)

/-- C4 (as amended). For a calibration with all three bounds in 0..1023 that is degenerate
(`maxHallValue ≤ centerHallValue` or `centerHallValue ≤ minHallValue`) and an average `r`
in 0..1023: `calculateThrottlePosition` divides by zero exactly when the two bounds of the
branch it takes are equal; when the branch it takes is inverted the throttle is 127;
whenever it returns, the throttle is in 0..255 and at most 123, equal to 127, or at least
131; and when the branch it takes is well ordered it applies the ordinary mapping: the
deadband applied to `(r - center) * 128 / (max - center) + 127` clamped to 127..255 on the
upper branch, and to `(r - min) * 127 / (center - min)` clamped to 0..127 on the lower
branch (truncating division). -/
theorem calculateThrottlePosition_degenerate (g : Globals) (analogRead : Nat → Int)
    (hmin : 0 ≤ g.remoteSettings.minHallValue ∧ g.remoteSettings.minHallValue ≤ 1023)
    (hcen : 0 ≤ g.remoteSettings.centerHallValue ∧ g.remoteSettings.centerHallValue ≤ 1023)
    (hmax : 0 ≤ g.remoteSettings.maxHallValue ∧ g.remoteSettings.maxHallValue ≤ 1023)
    (_hdeg : g.remoteSettings.maxHallValue ≤ g.remoteSettings.centerHallValue ∨
      g.remoteSettings.centerHallValue ≤ g.remoteSettings.minHallValue)
    (_hr : 0 ≤ hallAverage analogRead ∧ hallAverage analogRead ≤ 1023) :
    (calculateThrottlePosition g analogRead = none ↔
      (g.remoteSettings.centerHallValue ≤ hallAverage analogRead ∧
        g.remoteSettings.maxHallValue = g.remoteSettings.centerHallValue) ∨
      (hallAverage analogRead < g.remoteSettings.centerHallValue ∧
        g.remoteSettings.centerHallValue = g.remoteSettings.minHallValue)) ∧
    ((g.remoteSettings.centerHallValue ≤ hallAverage analogRead ∧
        g.remoteSettings.maxHallValue < g.remoteSettings.centerHallValue) ∨
      (hallAverage analogRead < g.remoteSettings.centerHallValue ∧
        g.remoteSettings.centerHallValue < g.remoteSettings.minHallValue) →
      (calculateThrottlePosition g analogRead).map Globals.throttle = some 127) ∧
    (∀ g', calculateThrottlePosition g analogRead = some g' →
      0 ≤ g'.throttle ∧ g'.throttle ≤ 255 ∧
        (g'.throttle ≤ 123 ∨ g'.throttle = 127 ∨ 131 ≤ g'.throttle)) ∧
    (g.remoteSettings.centerHallValue ≤ hallAverage analogRead ∧
        g.remoteSettings.centerHallValue < g.remoteSettings.maxHallValue →
      (calculateThrottlePosition g analogRead).map Globals.throttle =
        some (removeCenterNoise (constrain
          (Int.tdiv ((hallAverage analogRead - g.remoteSettings.centerHallValue) * 128)
            (g.remoteSettings.maxHallValue - g.remoteSettings.centerHallValue) + 127)
          127 255))) ∧
    (hallAverage analogRead < g.remoteSettings.centerHallValue ∧
        g.remoteSettings.minHallValue < g.remoteSettings.centerHallValue →
      (calculateThrottlePosition g analogRead).map Globals.throttle =
        some (removeCenterNoise (constrain
          (Int.tdiv ((hallAverage analogRead - g.remoteSettings.minHallValue) * 127)
            (g.remoteSettings.centerHallValue - g.remoteSettings.minHallValue))
          0 127))) := by
  obtain ⟨h1, h2, h3⟩ := calculateThrottlePosition_branch_cases g analogRead hmin hcen hmax
  have hr16 := hallAverage_range analogRead
  refine ⟨h1, h2, h3, fun h => ?_, fun h => ?_⟩
  · rw [calculateThrottlePosition_eq g analogRead
      (mapThrottle_upper (s := g.remoteSettings) hr16 (by omega) (by omega) h.2 h.1)]
    rfl
  · rw [calculateThrottlePosition_eq g analogRead
      (mapThrottle_lower (s := g.remoteSettings) hr16 (by omega) (by omega) h.2 h.1)]
    rfl

/-- C4 fails as stated. The calibration 0/512/512 passes the load validation and is
degenerate (`maxHallValue ≤ centerHallValue`); an average of 512 makes `map` divide by
zero, and an average of 0 gives throttle 0, not the neutral 127. -/
theorem calculateThrottlePosition_degenerate_counterexample :
    (withCalibration 0 512 512).remoteSettings.maxHallValue ≤
      (withCalibration 0 512 512).remoteSettings.centerHallValue ∧
    inRange (withCalibration 0 512 512).remoteSettings.minHallValue (ruleMin 8) (ruleMax 8)
      = true ∧
    inRange (withCalibration 0 512 512).remoteSettings.centerHallValue (ruleMin 9) (ruleMax 9)
      = true ∧
    inRange (withCalibration 0 512 512).remoteSettings.maxHallValue (ruleMin 10) (ruleMax 10)
      = true ∧
    hallAverage (fun _ => 512) = 512 ∧ hallAverage (fun _ => 0) = 0 ∧
    (calculateThrottlePosition (withCalibration 0 512 512) (fun _ => 512)).isNone = true ∧
    (calculateThrottlePosition (withCalibration 0 512 512) (fun _ => 0)).map Globals.throttle
      = some 0 := by
  decide

/-- C4 (as amended) at two degenerate calibrations. With 0/512/100 and an average of 600
the branch taken is inverted and the throttle is 127. With 0/512/512 and an average of 0
the branch taken is well ordered and the throttle is that of the ordinary mapping, 0. -/
theorem calculateThrottlePosition_degenerate_witness :
    (calculateThrottlePosition (withCalibration 0 512 100) (fun _ => 600)).map
      Globals.throttle = some 127 ∧
    (calculateThrottlePosition (withCalibration 0 512 512) (fun _ => 0)).map
      Globals.throttle = some 0 :=
  ⟨(calculateThrottlePosition_degenerate (withCalibration 0 512 100) (fun _ => 600)
      (by decide) (by decide) (by decide) (Or.inl (by decide)) (by decide)).2.1
      (Or.inl (by decide)),
    ((calculateThrottlePosition_degenerate (withCalibration 0 512 512) (fun _ => 0)
      (by decide) (by decide) (by decide) (Or.inl (by decide)) (by decide)).2.2.2.2
      (by decide)).trans (by decide)⟩

/-! ## Settings store: field access -/

theorem getSettingValue_setSettingValue_same (g : Globals) {i : Nat} (hi : i < 11) (v : Int) :
    getSettingValue (setSettingValue g i v) i = some (stored i v) := by
  interval_cases i <;> rfl

theorem getSettingValue_setSettingValue_other (g : Globals) {i j : Nat} (hij : i ≠ j)
    (v : Int) : getSettingValue (setSettingValue g i v) j = getSettingValue g j := by
  by_cases hi : i < 11
  · by_cases hj : j < 11
    · interval_cases i <;> interval_cases j <;> first | rfl | exact absurd rfl hij
    · have h11 : 11 ≤ j := by omega
      obtain ⟨k, rfl⟩ := Nat.exists_eq_add_of_le h11
      rw [Nat.add_comm]
      rfl
  · have h11 : 11 ≤ i := by omega
    obtain ⟨k, rfl⟩ := Nat.exists_eq_add_of_le h11
    rw [Nat.add_comm]
    rfl

theorem getSettingValue_isSome (g : Globals) {i : Nat} (hi : i < 11) :
    ∃ v, getSettingValue g i = some v := by
  interval_cases i <;> exact ⟨_, rfl⟩

/-- The function `setSettingValue` writes `remoteSettings` only. -/
theorem setSettingValue_frame (g : Globals) (R : settings) (i : Nat) (v : Int) :
    setSettingValue { g with remoteSettings := R } i v =
      { g with remoteSettings :=
        (setSettingValue { g with remoteSettings := R } i v).remoteSettings } := by
  by_cases hi : i < 11
  · interval_cases i <;> rfl
  · have h11 : 11 ≤ i := by omega
    obtain ⟨k, rfl⟩ := Nat.exists_eq_add_of_le h11
    rw [Nat.add_comm]
    rfl

/-- A record is determined by its eleven indexed values. -/
theorem settings_eq_of_getSettingValue {g h : Globals}
    (e : ∀ j, j < 11 → getSettingValue g j = getSettingValue h j) :
    g.remoteSettings = h.remoteSettings := by
  have e0 := e 0 (by omega); have e1 := e 1 (by omega); have e2 := e 2 (by omega)
  have e3 := e 3 (by omega); have e4 := e 4 (by omega); have e5 := e 5 (by omega)
  have e6 := e 6 (by omega); have e7 := e 7 (by omega); have e8 := e 8 (by omega)
  have e9 := e 9 (by omega); have e10 := e 10 (by omega)
  simp only [getSettingValue, Option.some.injEq] at e0 e1 e2 e3 e4 e5 e6 e7 e8 e9 e10
  cases hg : g.remoteSettings
  cases hh : h.remoteSettings
  simp_all

theorem stored_ruleDefault {i : Nat} (hi : i < 11) : stored i (ruleDefault i) = ruleDefault i := by
  interval_cases i <;> decide

theorem ruleDefault_inRange {i : Nat} (hi : i < 11) :
    inRange (ruleDefault i) (ruleMin i) (ruleMax i) = true := by
  interval_cases i <;> decide

/-! ## Settings store: the validation loop -/

theorem loadCheck_eq (acc : Globals × Bool) {i : Nat} (hi : i < 11) :
    loadCheck acc i =
      some (if damaged acc.1 i = true then (setSettingValue acc.1 i (ruleDefault i), true)
        else acc) := by
  obtain ⟨v, hv⟩ := getSettingValue_isSome acc.1 hi
  unfold loadCheck damaged
  rw [hv]
  rfl

theorem damaged_congr {g h : Globals} {i : Nat} (e : getSettingValue g i = getSettingValue h i) :
    damaged g i = damaged h i := by
  unfold damaged; rw [e]

/-- State of the validation loop after the entries below `k`: the damaged ones hold their
defaults, the others are untouched, the flag records whether any was damaged, and nothing
but `remoteSettings` has changed. -/
theorem loadLoop_spec (g0 : Globals) (k : Nat) (hk : k ≤ 11) :
    ∃ R b, (List.range k).foldlM loadCheck (g0, false) =
        some ({ g0 with remoteSettings := R }, b) ∧
      (∀ j, getSettingValue { g0 with remoteSettings := R } j =
        if j < k ∧ damaged g0 j = true then some (ruleDefault j) else getSettingValue g0 j) ∧
      (b = true ↔ ∃ j, j < k ∧ damaged g0 j = true) := by
  induction k with
  | zero =>
    refine ⟨g0.remoteSettings, false, rfl, fun j => ?_, ?_⟩
    · simp
    · simp
  | succ k ih =>
    obtain ⟨R, b, hfold, hget, hflag⟩ := ih (by omega)
    have hk11 : k < 11 := by omega
    have hdk : damaged { g0 with remoteSettings := R } k = damaged g0 k :=
      damaged_congr (by rw [hget k]; simp)
    rw [List.range_succ, List.foldlM_append, hfold]
    simp only [Option.some_bind, List.foldlM_cons, List.foldlM_nil, loadCheck_eq _ hk11, hdk,
      Option.bind_eq_bind, Option.pure_def]
    by_cases hd : damaged g0 k = true
    · rw [if_pos hd]
      refine ⟨(setSettingValue { g0 with remoteSettings := R } k (ruleDefault k)).remoteSettings,
        true, ?_, fun j => ?_, ?_⟩
      · rw [← setSettingValue_frame g0 R k (ruleDefault k)]
      · rw [← setSettingValue_frame g0 R k (ruleDefault k)]
        by_cases hjk : j = k
        · subst hjk
          rw [getSettingValue_setSettingValue_same _ hk11, stored_ruleDefault hk11,
            if_pos ⟨by omega, hd⟩]
        · rw [getSettingValue_setSettingValue_other _ (Ne.symm hjk), hget j]
          have : (j < k + 1) ↔ (j < k) := by omega
          simp only [this]
      · simp only [true_iff]
        exact ⟨k, by omega, hd⟩
    · rw [if_neg hd]
      refine ⟨R, b, rfl, fun j => ?_, ?_⟩
      · rw [hget j]
        by_cases hjk : j = k
        · subst hjk
          rw [if_neg (by omega), if_neg (fun h => hd h.2)]
        · have : (j < k + 1) ↔ (j < k) := by omega
          simp only [this]
      · rw [hflag]
        constructor
        · rintro ⟨j, hj, h⟩
          exact ⟨j, by omega, h⟩
        · rintro ⟨j, hj, h⟩
          refine ⟨j, ?_, h⟩
          rcases Nat.lt_succ_iff_lt_or_eq.mp hj with h1 | h1
          · exact h1
          · subst h1; exact absurd h hd

theorem inRange_iff (v lo hi : Int) : inRange v lo hi = true ↔ lo ≤ v ∧ v ≤ hi := by
  unfold inRange; simp

theorem getSettingValue_congr {g h : Globals} (e : g.remoteSettings = h.remoteSettings)
    (j : Nat) : getSettingValue g j = getSettingValue h j := by
  unfold getSettingValue; rw [e]

theorem damaged_false_iff (g : Globals) {j : Nat} (hj : j < 11) :
    damaged g j = false ↔
      ∃ v, getSettingValue g j = some v ∧ ruleMin j ≤ v ∧ v ≤ ruleMax j := by
  obtain ⟨v, hv⟩ := getSettingValue_isSome g hj
  unfold damaged
  rw [hv]
  simp [inRange_iff]

/-- The result of `loadEEPROMSettings` in closed form. `R` is the record after the validation
loop; it is written back exactly when some entry was damaged. -/
theorem loadEEPROMSettings_eq (g : Globals) :
    ∃ R, (∀ j, getSettingValue { g with remoteSettings := R } j =
        if j < 11 ∧ damaged (eepromGet g) j = true then some (ruleDefault j)
        else getSettingValue (eepromGet g) j) ∧
      (((∃ j, j < 11 ∧ damaged (eepromGet g) j = true) ∧
          loadEEPROMSettings g = some (calculateRatios
            { g with remoteSettings := R, eeprom := R, eepromPuts := g.eepromPuts + 1 })) ∨
        ((¬ ∃ j, j < 11 ∧ damaged (eepromGet g) j = true) ∧ R = g.eeprom ∧
          loadEEPROMSettings g = some (calculateRatios { g with remoteSettings := R }))) := by
  obtain ⟨R, b, hfold, hget, hflag⟩ := loadLoop_spec (eepromGet g) 11 (le_refl _)
  have hget' : ∀ j, getSettingValue { g with remoteSettings := R } j =
      if j < 11 ∧ damaged (eepromGet g) j = true then some (ruleDefault j)
      else getSettingValue (eepromGet g) j := hget
  refine ⟨R, hget', ?_⟩
  have hload : loadEEPROMSettings g =
      some (if b = true then updateEEPROMSettings { g with remoteSettings := R }
        else calculateRatios { g with remoteSettings := R }) := by
    unfold loadEEPROMSettings numOfSettings
    rw [hfold]
    rfl
  cases b with
  | true =>
    left
    exact ⟨hflag.mp rfl, by rw [hload]; rfl⟩
  | false =>
    right
    have hno : ¬ ∃ j, j < 11 ∧ damaged (eepromGet g) j = true := fun h => by
      have := hflag.mpr h
      cases this
    refine ⟨hno, ?_, by rw [hload]; rfl⟩
    have e := settings_eq_of_getSettingValue (g := { g with remoteSettings := R })
      (h := eepromGet g) (fun j _ => (hget' j).trans (if_neg (fun h => hno ⟨j, h.1, h.2⟩)))
    exact e

/-- What `loadEEPROMSettings` leaves behind, stated on the resulting state. -/
theorem loadEEPROMSettings_spec (g : Globals) :
    ∃ g', loadEEPROMSettings g = some g' ∧
      (∀ j, getSettingValue g' j =
        if j < 11 ∧ damaged (eepromGet g) j = true then some (ruleDefault j)
        else getSettingValue (eepromGet g) j) ∧
      g'.eeprom = g'.remoteSettings ∧
      ((∃ j, j < 11 ∧ damaged (eepromGet g) j = true) → g'.eepromPuts = g.eepromPuts + 1) ∧
      ((¬ ∃ j, j < 11 ∧ damaged (eepromGet g) j = true) →
        g'.remoteSettings = g.eeprom ∧ g'.eeprom = g.eeprom ∧ g'.eepromPuts = g.eepromPuts) ∧
      g'.gearRatio = floatDiv (some (g'.remoteSettings.motorPulley : ℚ))
        (g'.remoteSettings.wheelPulley : ℚ) ∧
      calculateRatios g' = g' := by
  obtain ⟨R, hget, ⟨hd, hl⟩ | ⟨hd, hR, hl⟩⟩ := loadEEPROMSettings_eq g
  · refine ⟨_, hl, fun j => ?_, rfl, fun _ => rfl, fun h => absurd hd h, rfl, rfl⟩
    rw [← hget j]
    exact getSettingValue_congr rfl j
  · refine ⟨_, hl, fun j => ?_, ?_, fun h => absurd h hd, fun _ => ⟨hR, rfl, rfl⟩, rfl, rfl⟩
    · rw [← hget j]
      exact getSettingValue_congr rfl j
    · exact hR.symm

/-- After `loadEEPROMSettings` every setting is within its rule-table range. -/
theorem loadEEPROMSettings_range_aux (g : Globals) :
    ∃ g', loadEEPROMSettings g = some g' ∧
      (∀ i, i < 11 → ∃ v, getSettingValue g' i = some v ∧ ruleMin i ≤ v ∧ v ≤ ruleMax i) ∧
      g'.eeprom = g'.remoteSettings ∧ calculateRatios g' = g' := by
  obtain ⟨g', hl, hget, he, -, -, -, hc⟩ := loadEEPROMSettings_spec g
  refine ⟨g', hl, fun i hi => ?_, he, hc⟩
  rw [hget i]
  by_cases hd : damaged (eepromGet g) i = true
  · rw [if_pos ⟨hi, hd⟩]
    exact ⟨_, rfl, (inRange_iff _ _ _).mp (ruleDefault_inRange hi)⟩
  · rw [if_neg (fun h => hd h.2)]
    exact (damaged_false_iff _ hi).mp (by simpa using hd)

/-! ## Settings store: the claims -/

/-- C5 fails as stated: only the damaged entries are reset. With `triggerMode = 5` (outside
0..3) and `batteryCells = 12` in the persisted record, the load resets `triggerMode` to 0
and keeps `batteryCells = 12`, although its rule-table default is 10. -/
theorem loadEEPROMSettings_resets_all_counterexample :
    damaged (eepromGet (persisted damagedRecord)) 0 = true ∧
    (loadEEPROMSettings (persisted damagedRecord)).map Globals.remoteSettings =
      some ⟨0, 0, 12, 14, 15, 40, 83, 1, 0, 512, 1023⟩ ∧
    (loadEEPROMSettings (persisted damagedRecord)).bind (fun g => getSettingValue g 2) =
      some 12 ∧
    ruleDefault 2 = 10 := by
  decide

/-- C5 (as amended). When at least one of the 11 persisted entries is outside its rule-table
range, `loadEEPROMSettings` returns with every damaged entry at its default and every other
entry as persisted, and has written that repaired record to the EEPROM with one
`EEPROM.put`. -/
theorem loadEEPROMSettings_repairs_damaged_entries (g : Globals) (k : Nat) (hk : k < 11)
    (hbad : damaged (eepromGet g) k = true) :
    ∃ g', loadEEPROMSettings g = some g' ∧
      (∀ j, j < 11 → getSettingValue g' j =
        if damaged (eepromGet g) j = true then some (ruleDefault j)
        else getSettingValue (eepromGet g) j) ∧
      g'.eeprom = g'.remoteSettings ∧ g'.eepromPuts = g.eepromPuts + 1 := by
  obtain ⟨g', hl, hget, he, hput, -, -, -⟩ := loadEEPROMSettings_spec g
  refine ⟨g', hl, fun j hj => ?_, he, hput ⟨k, hk, hbad⟩⟩
  rw [hget j]
  simp only [hj, true_and]

/-- C5 (as amended) at `damagedRecord`, whose entry 0 is damaged. -/
theorem loadEEPROMSettings_repairs_damaged_entries_witness :
    ∃ g', loadEEPROMSettings (persisted damagedRecord) = some g' ∧
      (∀ j, j < 11 → getSettingValue g' j =
        if damaged (eepromGet (persisted damagedRecord)) j = true then some (ruleDefault j)
        else getSettingValue (eepromGet (persisted damagedRecord)) j) ∧
      g'.eeprom = g'.remoteSettings ∧ g'.eepromPuts = (persisted damagedRecord).eepromPuts + 1 :=
  loadEEPROMSettings_repairs_damaged_entries (persisted damagedRecord) 0 (by decide) (by decide)

/-- C6. For any persisted record, `loadEEPROMSettings` returns, every setting 0..10 is then
within its rule-table `[min, max]`, and the persisted record equals `remoteSettings`. -/
theorem loadEEPROMSettings_in_range (g : Globals) :
    ∃ g', loadEEPROMSettings g = some g' ∧
      (∀ i, i < 11 → ∃ v, getSettingValue g' i = some v ∧ ruleMin i ≤ v ∧ v ≤ ruleMax i) ∧
      g'.eeprom = g'.remoteSettings := by
  obtain ⟨g', hl, hrange, he, -⟩ := loadEEPROMSettings_range_aux g
  exact ⟨g', hl, hrange, he⟩

/-- C7 fails as stated: 0 is inside the rule-table range 0..250 of `wheelPulley`. For the
record that holds the defaults except `wheelPulley = 0`, no entry is damaged, the load keeps
the record (so `wheelPulley` stays 0 and is not its default 40), writes nothing, and
`calculateRatios` divides by zero. -/
theorem loadEEPROMSettings_zero_wheelPulley_counterexample :
    zeroWheelPulleyRecord.wheelPulley = 0 ∧
    (List.range 11).all (fun j => !damaged (eepromGet (persisted zeroWheelPulleyRecord)) j)
      = true ∧
    (loadEEPROMSettings (persisted zeroWheelPulleyRecord)).map Globals.remoteSettings =
      some zeroWheelPulleyRecord ∧
    (loadEEPROMSettings (persisted zeroWheelPulleyRecord)).bind (fun g => getSettingValue g 5)
      = some 0 ∧
    ruleDefault 5 = 40 ∧
    (loadEEPROMSettings (persisted zeroWheelPulleyRecord)).map Globals.eepromPuts = some 0 ∧
    (loadEEPROMSettings (persisted zeroWheelPulleyRecord)).map Globals.gearRatio
      = some none := by
  decide

/-- C7 (as amended). For every persisted record whose `wheelPulley` is 0: that entry is not
damaged (0 lies in its range 0..250), `loadEEPROMSettings` returns with `wheelPulley`
still 0, `calculateRatios` has divided by it (`gearRatio` is not a finite number), and when
no other entry is damaged either, the record is kept as it is and nothing is written. -/
theorem loadEEPROMSettings_zero_wheelPulley (g : Globals) (h0 : g.eeprom.wheelPulley = 0) :
    ∃ g', loadEEPROMSettings g = some g' ∧
      damaged (eepromGet g) 5 = false ∧
      g'.remoteSettings.wheelPulley = 0 ∧
      g'.gearRatio = none ∧
      ((∀ j, j < 11 → damaged (eepromGet g) j = false) →
        g'.remoteSettings = g.eeprom ∧ g'.eeprom = g.eeprom ∧
          g'.eepromPuts = g.eepromPuts) := by
  obtain ⟨g', hl, hget, -, -, hkeep, hratio, -⟩ := loadEEPROMSettings_spec g
  have hd5 : damaged (eepromGet g) 5 = false := by
    have : getSettingValue (eepromGet g) 5 = some 0 := by
      show some g.eeprom.wheelPulley = some 0
      rw [h0]
    unfold damaged
    rw [this]
    decide
  have hw : g'.remoteSettings.wheelPulley = 0 := by
    have h5 := hget 5
    rw [if_neg (by simp [hd5])] at h5
    have e : some g'.remoteSettings.wheelPulley = some g.eeprom.wheelPulley := h5
    rw [h0] at e
    exact Option.some.inj e
  refine ⟨g', hl, hd5, hw, ?_, fun hall => hkeep ?_⟩
  · rw [hratio, hw]
    unfold floatDiv
    simp
  · rintro ⟨j, hj, hd⟩
    rw [hall j hj] at hd
    cases hd

/-- C7 (as amended) at `zeroWheelPulleyRecord`. -/
theorem loadEEPROMSettings_zero_wheelPulley_witness :
    ∃ g', loadEEPROMSettings (persisted zeroWheelPulleyRecord) = some g' ∧
      damaged (eepromGet (persisted zeroWheelPulleyRecord)) 5 = false ∧
      g'.remoteSettings.wheelPulley = 0 ∧
      g'.gearRatio = none ∧
      ((∀ j, j < 11 → damaged (eepromGet (persisted zeroWheelPulleyRecord)) j = false) →
        g'.remoteSettings = (persisted zeroWheelPulleyRecord).eeprom ∧
          g'.eeprom = (persisted zeroWheelPulleyRecord).eeprom ∧
          g'.eepromPuts = (persisted zeroWheelPulleyRecord).eepromPuts) :=
  loadEEPROMSettings_zero_wheelPulley (persisted zeroWheelPulleyRecord) (by decide)

/-- C8. For any persisted record, a load followed by a second load: the first returns a
state `g1`; in `g1` no entry is damaged, so the second load repairs nothing, and it returns
`g1` itself, with the same settings, the same persisted record and no further
`EEPROM.put`. -/
theorem loadEEPROMSettings_idempotent (g : Globals) :
    ∃ g1, loadEEPROMSettings g = some g1 ∧
      (∀ j, j < 11 → damaged (eepromGet g1) j = false) ∧
      loadEEPROMSettings g1 = some g1 := by
  obtain ⟨g1, hl, hrange, he, hcalc⟩ := loadEEPROMSettings_range_aux g
  have hself : eepromGet g1 = g1 := by
    cases g1
    dsimp only at he
    subst he
    rfl
  have hund : ∀ j, j < 11 → damaged (eepromGet g1) j = false := fun j hj => by
    rw [hself]
    exact (damaged_false_iff g1 hj).mpr (hrange j hj)
  refine ⟨g1, hl, hund, ?_⟩
  obtain ⟨R, -, ⟨⟨j, hj, hd⟩, -⟩ | ⟨-, hR, hl2⟩⟩ := loadEEPROMSettings_eq g1
  · rw [hund j hj] at hd
    cases hd
  · rw [hl2, hR]
    show some (calculateRatios (eepromGet g1)) = some g1
    rw [hself, hcalc]

/-- C9 fails as stated: `setSettingValue(0, 256)` stores 256 in a `byte`, so
`getSettingValue(0)` returns 0; and `setSettingValue(7, 2)` stores 2 in a `bool`, so
`getSettingValue(7)` returns 1. Both 256 and 2 are values of the 16-bit `int` argument. -/
theorem getSettingValue_setSettingValue_counterexample :
    getSettingValue (setSettingValue (persisted damagedRecord) 0 256) 0 = some 0 ∧
    getSettingValue (setSettingValue (persisted damagedRecord) 7 2) 7 = some 1 ∧
    wrap16 256 = 256 ∧ wrap16 2 = 2 := by
  decide

/-- C9 (as amended). For every index `i` in 0..10 and every `int` `v`, `getSettingValue(i)`
right after `setSettingValue(i, v)` returns `v` converted to the type of the field: `v mod
256` for the `byte` fields 0..6, 0 or 1 for the `bool` field 7, `v` itself for the `int`
fields 8..10. It therefore returns `v` whenever `v` fits the field (0..255 for 0..6, 0 or 1
for 7), in particular whenever `v` lies within the rule-table range of the field. -/
theorem getSettingValue_setSettingValue (g : Globals) (i : Nat) (v : Int) (hi : i < 11) :
    getSettingValue (setSettingValue g i v) i =
      some (if i ≤ 6 then v % 256 else if i = 7 then (if v = 0 then 0 else 1) else v) ∧
    ((i ≤ 6 → 0 ≤ v ∧ v ≤ 255) ∧ (i = 7 → v = 0 ∨ v = 1) →
      getSettingValue (setSettingValue g i v) i = some v) ∧
    (ruleMin i ≤ v ∧ v ≤ ruleMax i → getSettingValue (setSettingValue g i v) i = some v) := by
  have hs := getSettingValue_setSettingValue_same g hi v
  have hfit : (i ≤ 6 → 0 ≤ v ∧ v ≤ 255) ∧ (i = 7 → v = 0 ∨ v = 1) → stored i v = v := by
    rintro ⟨h6, h7⟩
    unfold stored toByte toBool
    by_cases c6 : i ≤ 6
    · rw [if_pos c6]
      have := h6 c6
      omega
    · rw [if_neg c6]
      by_cases c7 : i = 7
      · rw [if_pos c7]
        rcases h7 c7 with h | h <;> rw [h] <;> rfl
      · rw [if_neg c7]
  refine ⟨hs, fun h => by rw [hs, hfit h], fun h => ?_⟩
  rw [hs, hfit]
  interval_cases i <;> simp [ruleMin, ruleMax, settingRules] at h ⊢ <;> omega

/-- C9 (as amended) at index 4 (`motorPulley`) and the value 200. -/
theorem getSettingValue_setSettingValue_witness :
    getSettingValue (setSettingValue (persisted damagedRecord) 4 200) 4 = some 200 :=
  (getSettingValue_setSettingValue (persisted damagedRecord) 4 200 (by decide)).2.1
    ⟨fun _ => by decide, fun h => absurd h (by decide)⟩

/-! ## Radio link -/

theorem wrap16_idem (x : Int) : wrap16 (wrap16 x) = wrap16 x := by
  unfold wrap16; omega

theorem wrap16_add_one (x : Int) (n : Nat) :
    wrap16 (wrap16 (x + 1) + (n : Int)) = wrap16 (x + ((n + 1 : Nat) : Int)) := by
  unfold wrap16; push_cast; omega

/-- One gated call whose send fails: the counter goes up by one (modulo 2^16) and
`connected` is the test `failCount < 5` on the new counter. -/
theorem transmitToVesc_failure (g : Globals) (a : Attempt) (hg : gateOpen g a.now = true)
    (hf : a.sendSuccess = false) :
    (transmitToVesc g a).failCount = wrap16 (g.failCount + 1) ∧
      (transmitToVesc g a).connected = decide (wrap16 (g.failCount + 1) < 5) ∧
      (transmitToVesc g a).lastTransmission = a.stamp % 4294967296 := by
  unfold transmitToVesc
  rw [if_pos hg, hf]
  refine ⟨rfl, ?_, rfl⟩
  show (if wrap16 (g.failCount + 1) < 5 then true else false) = _
  by_cases h : wrap16 (g.failCount + 1) < 5 <;> simp [h]

/-- A run of gated failures adds its length to the counter, modulo 2^16. -/
theorem transmitAll_failures (g : Globals) (attempts : List Attempt)
    (hfc : wrap16 g.failCount = g.failCount) (h : allGatedFailures g attempts) :
    (transmitAll g attempts).failCount = wrap16 (g.failCount + (attempts.length : Int)) ∧
      (attempts ≠ [] →
        (transmitAll g attempts).connected = decide ((transmitAll g attempts).failCount < 5)) := by
  induction attempts generalizing g with
  | nil =>
    refine ⟨?_, fun h => absurd rfl h⟩
    show g.failCount = wrap16 (g.failCount + ((0 : Nat) : Int))
    rw [Nat.cast_zero, add_zero, hfc]
  | cons a rest ih =>
    obtain ⟨hg, hf, hrest⟩ := h
    obtain ⟨e1, e2, -⟩ := transmitToVesc_failure g a hg hf
    have ih' := ih (transmitToVesc g a) (by rw [e1, wrap16_idem]) hrest
    have estep : transmitAll g (a :: rest) = transmitAll (transmitToVesc g a) rest := rfl
    rw [estep]
    refine ⟨?_, fun _ => ?_⟩
    · rw [ih'.1, e1, List.length_cons, wrap16_add_one]
    · cases rest with
      | nil =>
        show (transmitToVesc g a).connected = decide ((transmitToVesc g a).failCount < 5)
        rw [e2, e1]
      | cons b rest' => exact ih'.2 (List.cons_ne_nil _ _)

theorem failureStreak_length (start n : Nat) : (failureStreak start n).length = n := by
  induction n generalizing start with
  | zero => rfl
  | succ n ih => simp [failureStreak, ih]

/-- Every attempt of a `failureStreak` that starts right after the last transmission
passes the 50 ms gate and fails. -/
theorem failureStreak_gated (g : Globals) (start n : Nat)
    (hlast : g.lastTransmission = start % 4294967296) :
    allGatedFailures g (failureStreak start n) := by
  induction n generalizing g start with
  | zero => trivial
  | succ n ih =>
    have hgate : gateOpen g (start + 50) = true := by
      unfold gateOpen
      rw [hlast]
      simp only [decide_eq_true_eq]
      push_cast
      omega
    refine ⟨hgate, rfl, ih _ _ ?_⟩
    exact (transmitToVesc_failure g ⟨start + 50, start + 50, false, []⟩ hgate rfl).2.2

/-- Between 5 and 32767 consecutive gated failures from a zero counter leave
`connected` false. -/
theorem transmitAll_failures_disconnected (g : Globals) (attempts : List Attempt)
    (h0 : g.failCount = 0) (h : allGatedFailures g attempts) (h5 : 5 ≤ attempts.length)
    (hmax : attempts.length ≤ 32767) : (transmitAll g attempts).connected = false := by
  have hne : attempts ≠ [] := by
    intro e; rw [e] at h5; simp at h5
  obtain ⟨e1, e2⟩ := transmitAll_failures g attempts (by rw [h0]; rfl) h
  rw [e2 hne, e1, h0, zero_add, wrap16_of_range (by omega) (by omega)]
  simp only [decide_eq_false_iff_not, not_lt]
  omega

/-- C10, the code at the failing input. Starting from `failCount = 0`, a streak of 32768
transmissions that each pass the 50 ms gate and each fail wraps the 16-bit counter to
-32768, which is below 5, so `connected` is true again. -/
theorem transmitToVesc_streak_overflow :
    (withCalibration 0 512 1023).failCount = 0 ∧
    (failureStreak 0 32768).length = 32768 ∧
    allGatedFailures (withCalibration 0 512 1023) (failureStreak 0 32768) ∧
    (transmitAll (withCalibration 0 512 1023) (failureStreak 0 32768)).failCount = -32768 ∧
    (transmitAll (withCalibration 0 512 1023) (failureStreak 0 32768)).connected = true := by
  have hg : allGatedFailures (withCalibration 0 512 1023) (failureStreak 0 32768) :=
    failureStreak_gated _ 0 32768 rfl
  have hne : failureStreak 0 32768 ≠ [] := by
    intro e
    have := failureStreak_length 0 32768
    rw [e] at this
    simp at this
  obtain ⟨e1, e2⟩ := transmitAll_failures (withCalibration 0 512 1023) (failureStreak 0 32768)
    rfl hg
  rw [failureStreak_length] at e1
  have e3 : (transmitAll (withCalibration 0 512 1023) (failureStreak 0 32768)).failCount
      = -32768 := by
    rw [e1]; decide
  refine ⟨rfl, failureStreak_length 0 32768, hg, e3, ?_⟩
  rw [e2 hne, e3]
  decide

/-! ## Radio link: the invariant and the reset on success -/

theorem transmitToVesc_gated (g : Globals) (a : Attempt) (hg : gateOpen g a.now = true) :
    (transmitToVesc g a).connected = decide ((transmitToVesc g a).failCount < 5) ∧
      (transmitToVesc g a).failCount = (if a.sendSuccess = true then 0
        else wrap16 (g.failCount + 1)) := by
  unfold transmitToVesc
  rw [if_pos hg]
  refine ⟨?_, rfl⟩
  show (if (if a.sendSuccess = true then (0 : Int) else wrap16 (g.failCount + 1)) < 5
    then true else false) = _
  by_cases h : (if a.sendSuccess = true then (0 : Int) else wrap16 (g.failCount + 1)) < 5 <;>
    simp [h]

theorem transmitToVesc_closed (g : Globals) (a : Attempt) (hg : gateOpen g a.now = false) :
    transmitToVesc g a = g := by
  unfold transmitToVesc
  rw [if_neg (by rw [hg]; decide)]

/-- The link invariant is kept by every call of `transmitToVesc`, and a call that passes
the gate establishes it. -/
theorem transmitToVesc_invariant (g : Globals) (a : Attempt)
    (h : gateOpen g a.now = true ∨ g.connected = decide (g.failCount < 5)) :
    (transmitToVesc g a).connected = decide ((transmitToVesc g a).failCount < 5) := by
  by_cases hg : gateOpen g a.now = true
  · exact (transmitToVesc_gated g a hg).1
  · have hc : gateOpen g a.now = false := by simpa using hg
    rw [transmitToVesc_closed g a hc]
    rcases h with h | h
    · exact absurd h hg
    · exact h

theorem transmitAll_invariant (g : Globals) (attempts : List Attempt)
    (h : g.connected = decide (g.failCount < 5)) :
    (transmitAll g attempts).connected = decide ((transmitAll g attempts).failCount < 5) := by
  induction attempts generalizing g with
  | nil => exact h
  | cons a rest ih => exact ih (transmitToVesc g a) (transmitToVesc_invariant g a (Or.inr h))

theorem transmitAll_invariant_iff (g : Globals) (attempts : List Attempt)
    (h : ¬ g.connected = decide (g.failCount < 5)) :
    (transmitAll g attempts).connected = decide ((transmitAll g attempts).failCount < 5) ↔
      anyGated g attempts = true := by
  induction attempts generalizing g with
  | nil =>
    constructor
    · intro h'; exact absurd h' h
    · intro h'; cases h'
  | cons a rest ih =>
    have estep : transmitAll g (a :: rest) = transmitAll (transmitToVesc g a) rest := rfl
    rw [estep]
    by_cases hg : gateOpen g a.now = true
    · have hany : anyGated g (a :: rest) = true := by
        show (gateOpen g a.now || anyGated (transmitToVesc g a) rest) = true
        rw [hg]; rfl
      exact ⟨fun _ => hany, fun _ =>
        transmitAll_invariant _ rest (transmitToVesc_invariant g a (Or.inl hg))⟩
    · have hc : gateOpen g a.now = false := by simpa using hg
      have hany : anyGated g (a :: rest) = anyGated g rest := by
        show (gateOpen g a.now || anyGated (transmitToVesc g a) rest) = _
        rw [hc, transmitToVesc_closed g a hc]; rfl
      rw [transmitToVesc_closed g a hc, hany]
      exact ih g h

/-- C11 fails as stated: the initialisers give `connected = false` and `failCount = 0`, so
`connected` differs from `failCount < 5` in the initial state, and it still does after a
call of `transmitToVesc` that does not pass the 50 ms gate. -/
theorem transmitToVesc_invariant_counterexample :
    initialGlobals.connected = false ∧ initialGlobals.failCount = 0 ∧
    initialGlobals.connected ≠ decide (initialGlobals.failCount < 5) ∧
    gateOpen initialGlobals 10 = false ∧
    (transmitToVesc initialGlobals ⟨10, 10, true, []⟩).connected ≠
      decide ((transmitToVesc initialGlobals ⟨10, 10, true, []⟩).failCount < 5) := by
  decide

/-- C11 (as amended). After any run of calls of `transmitToVesc` from the initial state,
`connected == (failCount < 5)` holds exactly when some call of the run has passed the
50 ms gate; and from any state, a call that passes the gate establishes the invariant and
a call made while it holds keeps it, gated or not. -/
theorem transmitAll_link_invariant (attempts : List Attempt) :
    ((transmitAll initialGlobals attempts).connected =
        decide ((transmitAll initialGlobals attempts).failCount < 5) ↔
      anyGated initialGlobals attempts = true) ∧
    (∀ (g : Globals) (a : Attempt),
      gateOpen g a.now = true ∨ g.connected = decide (g.failCount < 5) →
      (transmitToVesc g a).connected = decide ((transmitToVesc g a).failCount < 5)) :=
  ⟨transmitAll_invariant_iff initialGlobals attempts (by decide),
    fun g a h => transmitToVesc_invariant g a h⟩

/-- C12. From any link state, a call of `transmitToVesc` that passes the 50 ms gate and
whose send succeeds leaves `failCount = 0` and `connected = true`. -/
theorem transmitToVesc_success_resets (g : Globals) (a : Attempt)
    (hg : gateOpen g a.now = true) (hs : a.sendSuccess = true) :
    (transmitToVesc g a).failCount = 0 ∧ (transmitToVesc g a).connected = true := by
  obtain ⟨hc, hf⟩ := transmitToVesc_gated g a hg
  rw [if_pos hs] at hf
  rw [hc, hf]
  exact ⟨rfl, by decide⟩

/-- C12 in the scenario of the spec: four failed sends 50 ms apart bring `failCount` to 4
with the link still connected, and the successful fifth send resets `failCount` to 0 with
`connected = true`. -/
theorem transmitToVesc_success_resets_witness :
    allGatedFailures (withCalibration 0 512 1023) (failureStreak 0 4) ∧
    (transmitAll (withCalibration 0 512 1023) (failureStreak 0 4)).failCount = 4 ∧
    (transmitToVesc (transmitAll (withCalibration 0 512 1023) (failureStreak 0 4))
      ⟨250, 250, true, []⟩).failCount = 0 ∧
    (transmitToVesc (transmitAll (withCalibration 0 512 1023) (failureStreak 0 4))
      ⟨250, 250, true, []⟩).connected = true :=
  ⟨failureStreak_gated _ 0 4 rfl, by decide,
    transmitToVesc_success_resets (transmitAll (withCalibration 0 512 1023) (failureStreak 0 4))
      ⟨250, 250, true, []⟩ (by decide) (by decide)⟩

/-! ## Settings menu: the trigger part and the axis part -/

theorem menuTrigger_frame (g : Globals) (digitalRead : Int) :
    (menuTrigger g digitalRead).currentSetting = g.currentSetting ∧
      (menuTrigger g digitalRead).remoteSettings = g.remoteSettings ∧
      (menuTrigger g digitalRead).hallMeasurement = g.hallMeasurement ∧
      (menuTrigger g digitalRead).settingsLoopFlag = g.settingsLoopFlag := by
  unfold menuTrigger
  by_cases h1 : triggerActive digitalRead = true
  · by_cases h2 : g.settingsChangeFlag = false
    · by_cases h3 : g.changeSelectedSetting = true
      · simp only [h1, h2, h3, if_true]
        exact ⟨rfl, rfl, rfl, rfl⟩
      · simp only [h1, h2, h3, if_true, if_false]
        exact ⟨rfl, rfl, rfl, rfl⟩
    · simp only [h1, h2, if_true, if_false]
      exact ⟨rfl, rfl, rfl, rfl⟩
  · simp only [h1, if_false]
    exact ⟨rfl, rfl, rfl, rfl⟩

theorem menuTrigger_released (g : Globals) (digitalRead : Int)
    (h : triggerActive digitalRead = false) :
    menuTrigger g digitalRead = { g with settingsChangeFlag := false } := by
  unfold menuTrigger
  rw [if_neg (by rw [h]; decide)]

theorem menuTrigger_held (g : Globals) (digitalRead : Int)
    (h : triggerActive digitalRead = true) (hflag : g.settingsChangeFlag = true) :
    menuTrigger g digitalRead = g := by
  unfold menuTrigger
  rw [if_pos h, if_neg (by rw [hflag]; decide)]

theorem menuTrigger_leave_editing (g : Globals) (digitalRead : Int)
    (h : triggerActive digitalRead = true) (hflag : g.settingsChangeFlag = false)
    (hedit : g.changeSelectedSetting = true) :
    menuTrigger g digitalRead =
      { updateEEPROMSettings g with changeSelectedSetting := false,
                                    settingsChangeFlag := true } := by
  unfold menuTrigger
  rw [if_pos h, if_pos hflag]
  simp only [hedit, if_true]
  have : (updateEEPROMSettings g).changeSelectedSetting = true := hedit
  rw [this]
  rfl

/-- The axis part in Idle: it always returns, and touches nothing but the selection index
and the axis latch. -/
theorem menuAxis_idle (g : Globals) (hidle : g.changeSelectedSetting = false) :
    ∃ g', menuAxis g = some g' ∧ g'.remoteSettings = g.remoteSettings ∧
      g'.changeSelectedSetting = false ∧ g'.settingsChangeFlag = g.settingsChangeFlag ∧
      g'.eeprom = g.eeprom ∧ g'.eepromPuts = g.eepromPuts := by
  unfold menuAxis
  simp only [hidle, Bool.false_eq_true, if_false]
  split_ifs <;>
    first | exact ⟨_, rfl, rfl, rfl, rfl, rfl, rfl⟩ | exact ⟨_, rfl, rfl, hidle, rfl, rfl, rfl⟩

/-- The axis part with the latch set: it always returns, leaves the selection index and the
settings alone, and clears the latch exactly on a reading inside the center band. -/
theorem menuAxis_latched (g : Globals) (hlatch : g.settingsLoopFlag = true) :
    menuAxis g = some (if inRange g.hallMeasurement
        (wrap16 (g.remoteSettings.centerHallValue - 50))
        (wrap16 (g.remoteSettings.centerHallValue + 50)) = true
      then { g with settingsLoopFlag := false } else g) := by
  unfold menuAxis
  simp only [hlatch, Bool.true_eq_false, and_false, if_false]
  split_ifs <;> rfl

theorem menuAxis_idle_up (g : Globals) (hidle : g.changeSelectedSetting = false)
    (hlatch : g.settingsLoopFlag = false)
    (hup : g.hallMeasurement ≥ wrap16 (g.remoteSettings.maxHallValue - 150)) :
    menuAxis g = some (if g.currentSetting ≠ 0 then
        { g with currentSetting := g.currentSetting - 1, settingsLoopFlag := true }
      else g) := by
  unfold menuAxis
  rw [if_pos ⟨hup, hlatch⟩, if_neg (by rw [hidle]; decide)]

theorem menuAxis_idle_down (g : Globals) (hidle : g.changeSelectedSetting = false)
    (hlatch : g.settingsLoopFlag = false)
    (hup : ¬ g.hallMeasurement ≥ wrap16 (g.remoteSettings.maxHallValue - 150))
    (hdown : g.hallMeasurement ≤ wrap16 (g.remoteSettings.minHallValue + 150)) :
    menuAxis g = some (if g.currentSetting < numOfSettings - 1 then
        { g with currentSetting := g.currentSetting + 1, settingsLoopFlag := true }
      else g) := by
  unfold menuAxis
  rw [if_neg (fun h => hup h.1), if_pos ⟨hdown, hlatch⟩, if_neg (by rw [hidle]; decide)]

theorem menuAxis_neither (g : Globals)
    (hup : ¬ g.hallMeasurement ≥ wrap16 (g.remoteSettings.maxHallValue - 150))
    (hdown : ¬ g.hallMeasurement ≤ wrap16 (g.remoteSettings.minHallValue + 150)) :
    menuAxis g = some (if inRange g.hallMeasurement
        (wrap16 (g.remoteSettings.centerHallValue - 50))
        (wrap16 (g.remoteSettings.centerHallValue + 50)) = true
      then { g with settingsLoopFlag := false } else g) := by
  unfold menuAxis
  rw [if_neg (fun h => hup h.1), if_neg (fun h => hdown h.1)]
  split_ifs <;> rfl

/-- The axis part in Idle with the latch clear: where the selection index goes. -/
theorem menuAxis_idle_navigation (g : Globals)
    (hidle : g.changeSelectedSetting = false) (hlatch : g.settingsLoopFlag = false)
    (hmax : -32618 ≤ g.remoteSettings.maxHallValue ∧ g.remoteSettings.maxHallValue ≤ 32767)
    (hmin : -32768 ≤ g.remoteSettings.minHallValue ∧ g.remoteSettings.minHallValue ≤ 32617)
    (hcur : g.currentSetting ≤ 10) :
    ∃ g', menuAxis g = some g' ∧
      (g.remoteSettings.maxHallValue - 150 ≤ g.hallMeasurement →
        (g'.currentSetting : Int) = max ((g.currentSetting : Int) - 1) 0) ∧
      (g.hallMeasurement < g.remoteSettings.maxHallValue - 150 →
        g.hallMeasurement ≤ g.remoteSettings.minHallValue + 150 →
        (g'.currentSetting : Int) = min ((g.currentSetting : Int) + 1) 10) ∧
      g'.currentSetting ≤ 10 ∧ g'.remoteSettings = g.remoteSettings := by
  have hwmax : wrap16 (g.remoteSettings.maxHallValue - 150) = g.remoteSettings.maxHallValue - 150 :=
    wrap16_of_range (by omega) (by omega)
  have hwmin : wrap16 (g.remoteSettings.minHallValue + 150) = g.remoteSettings.minHallValue + 150 :=
    wrap16_of_range (by omega) (by omega)
  by_cases hup : g.remoteSettings.maxHallValue - 150 ≤ g.hallMeasurement
  · rw [menuAxis_idle_up g hidle hlatch (by rw [hwmax]; exact hup)]
    by_cases h0 : g.currentSetting = 0
    · refine ⟨_, rfl, fun _ => ?_, fun h => absurd hup (not_le.mpr h), ?_, ?_⟩
      · simp [h0]
      · simp [h0]
      · simp [h0]
    · refine ⟨_, rfl, fun _ => ?_, fun h => absurd hup (not_le.mpr h), ?_, ?_⟩
      · simp only [ne_eq, h0, not_false_eq_true, if_true]
        have : 1 ≤ g.currentSetting := Nat.one_le_iff_ne_zero.mpr h0
        rw [Nat.cast_sub this]
        omega
      · simp only [ne_eq, h0, not_false_eq_true, if_true]
        omega
      · simp only [ne_eq, h0, not_false_eq_true, if_true]
  · by_cases hdown : g.hallMeasurement ≤ g.remoteSettings.minHallValue + 150
    · rw [menuAxis_idle_down g hidle hlatch (by rw [hwmax]; exact hup) (by rw [hwmin]; exact hdown)]
      by_cases h10 : g.currentSetting < numOfSettings - 1
      · have h10' : g.currentSetting < 10 := h10
        refine ⟨_, rfl, fun h => absurd h hup, fun _ _ => ?_, ?_, ?_⟩
        · simp only [h10, if_true]
          push_cast
          omega
        · simp only [h10, if_true]
          omega
        · simp only [h10, if_true]
      · have h10' : ¬ g.currentSetting < 10 := h10
        refine ⟨_, rfl, fun h => absurd h hup, fun _ _ => ?_, ?_, ?_⟩
        · simp only [h10, if_false]
          omega
        · simp only [h10, if_false]
          exact hcur
        · simp only [h10, if_false]
    · rw [menuAxis_neither g (by rw [hwmax]; exact hup) (by rw [hwmin]; exact hdown)]
      refine ⟨_, rfl, fun h => absurd h hup, fun _ h => absurd h hdown, ?_, ?_⟩
      · split_ifs <;> exact hcur
      · split_ifs <;> rfl


/-! ## Settings menu: the claims -/

/-- C13. In Idle with the axis latch clear and the trigger released, one step of
`controlSettingsMenu` with `hallMeasurement ≥ maxHallValue - 150` sets the selection index
to `max (index - 1) 0`, one step below that threshold with `hallMeasurement ≤ minHallValue +
150` sets it to `min (index + 1) 10`; for every reading the index stays in 0..10 and
`remoteSettings` is unchanged. The calibration bounds are 16-bit values for which the two
thresholds do not overflow, as every validated calibration is. -/
theorem controlSettingsMenu_idle_navigation (g : Globals) (digitalRead : Int)
    (hidle : g.changeSelectedSetting = false) (hlatch : g.settingsLoopFlag = false)
    (htrig : triggerActive digitalRead = false)
    (hmax : -32618 ≤ g.remoteSettings.maxHallValue ∧ g.remoteSettings.maxHallValue ≤ 32767)
    (hmin : -32768 ≤ g.remoteSettings.minHallValue ∧ g.remoteSettings.minHallValue ≤ 32617)
    (hcur : g.currentSetting ≤ 10) :
    ∃ g', controlSettingsMenu g digitalRead = some g' ∧
      (g.remoteSettings.maxHallValue - 150 ≤ g.hallMeasurement →
        (g'.currentSetting : Int) = max ((g.currentSetting : Int) - 1) 0) ∧
      (g.hallMeasurement < g.remoteSettings.maxHallValue - 150 →
        g.hallMeasurement ≤ g.remoteSettings.minHallValue + 150 →
        (g'.currentSetting : Int) = min ((g.currentSetting : Int) + 1) 10) ∧
      g'.currentSetting ≤ 10 ∧ g'.remoteSettings = g.remoteSettings := by
  obtain ⟨e1, e2, e3, e4⟩ := menuTrigger_frame g digitalRead
  have e5 : (menuTrigger g digitalRead).changeSelectedSetting = false := by
    rw [menuTrigger_released g digitalRead htrig]; exact hidle
  have h := menuAxis_idle_navigation (menuTrigger g digitalRead) e5 (by rw [e4]; exact hlatch)
    (by rw [e2]; exact hmax) (by rw [e2]; exact hmin) (by rw [e1]; exact hcur)
  rw [e1, e2, e3] at h
  exact h

/-- C13 at the default calibration, index 3, with a reading of 900 (up extreme): the
index becomes 2. -/
theorem controlSettingsMenu_idle_navigation_witness :
    (controlSettingsMenu { idleAtThree with hallMeasurement := 900 } HIGH).map
      Globals.currentSetting = some 2 ∧
    ∃ g', controlSettingsMenu { idleAtThree with hallMeasurement := 900 } HIGH = some g' ∧
      ((1023 : Int) - 150 ≤ 900 → (g'.currentSetting : Int) = max (((3 : Nat) : Int) - 1) 0) ∧
      ((900 : Int) < 1023 - 150 → (900 : Int) ≤ 0 + 150 →
        (g'.currentSetting : Int) = min (((3 : Nat) : Int) + 1) 10) ∧
      g'.currentSetting ≤ 10 ∧ g'.remoteSettings = idleAtThree.remoteSettings :=
  ⟨by decide, controlSettingsMenu_idle_navigation { idleAtThree with hallMeasurement := 900 }
    HIGH rfl rfl (by decide) (by decide) (by decide) (by decide)⟩

/-- The trigger part on a released trigger, seen through the fields the axis part reads. -/
theorem menuStep_released_eq (g : Globals) (x : Int) :
    ∃ g1, menuStep g HIGH x = menuAxis g1 ∧ g1.hallMeasurement = x ∧
      g1.remoteSettings = g.remoteSettings ∧ g1.currentSetting = g.currentSetting ∧
      g1.settingsLoopFlag = g.settingsLoopFlag ∧
      g1.changeSelectedSetting = g.changeSelectedSetting := by
  refine ⟨menuTrigger { g with hallMeasurement := x } HIGH, rfl, ?_⟩
  rw [menuTrigger_released _ HIGH (by decide)]
  exact ⟨rfl, rfl, rfl, rfl, rfl⟩

/-- A low-extreme reading with the latch clear fires once: the index goes up by one and the
latch is set. -/
theorem menuStep_low_fires (g : Globals) (index : Nat) (x : Int)
    (h : idleMenuAt g index false) (hidx : index < 10) (hx : x ≤ 150) :
    ∃ g', menuStep g HIGH x = some g' ∧ idleMenuAt g' (index + 1) true := by
  obtain ⟨hmin, hcen, hmax, hidle, hcur, hlatch⟩ := h
  obtain ⟨g1, e, e1, e2, e3, e4, e5⟩ := menuStep_released_eq g x
  have hup : ¬ g1.hallMeasurement ≥ wrap16 (g1.remoteSettings.maxHallValue - 150) := by
    rw [e1, e2, hmax]
    have : wrap16 (1023 - 150) = 873 := by decide
    rw [this]; omega
  have hdown : g1.hallMeasurement ≤ wrap16 (g1.remoteSettings.minHallValue + 150) := by
    rw [e1, e2, hmin]
    have : wrap16 (0 + 150) = 150 := by decide
    rw [this]; exact hx
  rw [e, menuAxis_idle_down g1 (by rw [e5]; exact hidle) (by rw [e4]; exact hlatch) hup hdown,
    if_pos (by rw [e3, hcur]; exact hidx)]
  refine ⟨_, rfl, ?_, ?_, ?_, ?_, ?_, rfl⟩
  · show g1.remoteSettings.minHallValue = 0
    rw [e2]; exact hmin
  · show g1.remoteSettings.centerHallValue = 512
    rw [e2]; exact hcen
  · show g1.remoteSettings.maxHallValue = 1023
    rw [e2]; exact hmax
  · show g1.changeSelectedSetting = false
    rw [e5]; exact hidle
  · show g1.currentSetting + 1 = index + 1
    rw [e3, hcur]

/-- With the latch set, a reading outside the center band 462..562 changes nothing. -/
theorem menuStep_latched_outside (g : Globals) (index : Nat) (x : Int)
    (h : idleMenuAt g index true) (hx : x < 462 ∨ 562 < x) :
    ∃ g', menuStep g HIGH x = some g' ∧ idleMenuAt g' index true := by
  obtain ⟨hmin, hcen, hmax, hidle, hcur, hlatch⟩ := h
  obtain ⟨g1, e, e1, e2, e3, e4, e5⟩ := menuStep_released_eq g x
  rw [e, menuAxis_latched g1 (by rw [e4]; exact hlatch), e1, e2, hcen]
  have hlo : wrap16 (512 - 50) = 462 := by decide
  have hhi : wrap16 (512 + 50) = 562 := by decide
  rw [hlo, hhi]
  have hout : ¬ inRange x 462 562 = true := by
    rw [inRange_iff]; omega
  rw [if_neg hout]
  exact ⟨g1, rfl, by rw [e2]; exact hmin, by rw [e2]; exact hcen, by rw [e2]; exact hmax,
    by rw [e5]; exact hidle, by rw [e3]; exact hcur, by rw [e4]; exact hlatch⟩

/-- With the latch set, a reading inside the center band 462..562 clears the latch and
changes nothing else. -/
theorem menuStep_latched_center (g : Globals) (index : Nat) (c : Int)
    (h : idleMenuAt g index true) (hc : 462 ≤ c ∧ c ≤ 562) :
    ∃ g', menuStep g HIGH c = some g' ∧ idleMenuAt g' index false := by
  obtain ⟨hmin, hcen, hmax, hidle, hcur, hlatch⟩ := h
  obtain ⟨g1, e, e1, e2, e3, e4, e5⟩ := menuStep_released_eq g c
  rw [e, menuAxis_latched g1 (by rw [e4]; exact hlatch), e1, e2, hcen]
  have hlo : wrap16 (512 - 50) = 462 := by decide
  have hhi : wrap16 (512 + 50) = 562 := by decide
  rw [hlo, hhi, if_pos ((inRange_iff _ _ _).mpr hc)]
  refine ⟨_, rfl, hmin, hcen, hmax, ?_, ?_, rfl⟩
  · show g1.changeSelectedSetting = false
    rw [e5]; exact hidle
  · show g1.currentSetting = index
    rw [e3]; exact hcur

theorem menuRun_append (g : Globals) (s1 s2 : List (Int × Int)) :
    menuRun g (s1 ++ s2) = (menuRun g s1).bind (fun g1 => menuRun g1 s2) := by
  induction s1 generalizing g with
  | nil => rfl
  | cons a rest ih =>
    show (menuStep g a.1 a.2).bind (fun g1 => menuRun g1 (rest ++ s2)) = _
    cases hstep : menuStep g a.1 a.2 with
    | none => simp [menuRun, hstep]
    | some g1 => simp [menuRun, hstep, ih]

/-- Holding the axis at the low extreme with the latch set changes nothing, however many
steps it lasts. -/
theorem menuRun_low_held (g : Globals) (index : Nat) (lows : List Int)
    (h : idleMenuAt g index true) (hl : ∀ x ∈ lows, x ≤ 150) :
    ∃ g', menuRun g (released lows) = some g' ∧ idleMenuAt g' index true := by
  induction lows generalizing g with
  | nil => exact ⟨g, rfl, h⟩
  | cons x rest ih =>
    obtain ⟨g1, e1, h1⟩ := menuStep_latched_outside g index x h
      (Or.inl (by have := hl x (List.mem_cons_self _ _); omega))
    obtain ⟨g2, e2, h2⟩ := ih g1 h1 (fun y hy => hl y (List.mem_cons_of_mem _ hy))
    refine ⟨g2, ?_, h2⟩
    show (menuStep g HIGH x).bind (fun g1 => menuRun g1 (released rest)) = some g2
    rw [e1]
    exact e2

/-- One excursion to the low extreme, held for any number of steps, moves the index up by
exactly one. -/
theorem menuRun_low_gesture (g : Globals) (index : Nat) (lows : List Int)
    (h : idleMenuAt g index false) (hidx : index < 10) (hne : lows ≠ [])
    (hl : ∀ x ∈ lows, x ≤ 150) :
    ∃ g', menuRun g (released lows) = some g' ∧ idleMenuAt g' (index + 1) true := by
  cases lows with
  | nil => exact absurd rfl hne
  | cons x rest =>
    obtain ⟨g1, e1, h1⟩ := menuStep_low_fires g index x h hidx (hl x (List.mem_cons_self _ _))
    obtain ⟨g2, e2, h2⟩ := menuRun_low_held g1 (index + 1) rest h1
      (fun y hy => hl y (List.mem_cons_of_mem _ hy))
    refine ⟨g2, ?_, h2⟩
    show (menuStep g HIGH x).bind (fun g1 => menuRun g1 (released rest)) = some g2
    rw [e1]
    exact e2

/-- C14 fails as stated: the low extreme is the "Down" branch, which increments the
selection index. Three steps at reading 100, one at 512 and three more at 100, from index 3,
end at index 5, not 1. -/
theorem menuRun_two_gestures_counterexample :
    (menuRun idleAtThree (released [100, 100, 100, 512, 100, 100, 100])).map
      Globals.currentSetting = some 5 ∧
    idleAtThree.currentSetting = 3 ∧ idleAtThree.changeSelectedSetting = false ∧
    idleAtThree.settingsLoopFlag = false ∧
    (100 : Int) ≤ idleAtThree.remoteSettings.minHallValue + 150 ∧
    inRange 512 (idleAtThree.remoteSettings.centerHallValue - 50)
      (idleAtThree.remoteSettings.centerHallValue + 50) = true := by
  decide

/-- C14 (as amended). From Idle at index 3 with the latch clear, the default calibration
and the trigger released throughout: a non-empty run of low-extreme readings (each at most
150) leaves the index at 4; after a step inside the center band 462..562 a second
non-empty run of low-extreme readings leaves it at 5. The index is incremented exactly
twice, once per excursion, however many steps each excursion lasts. -/
theorem menuRun_two_gestures (lows1 lows2 : List Int) (c : Int)
    (h1 : lows1 ≠ []) (h2 : lows2 ≠ [])
    (hl1 : ∀ x ∈ lows1, x ≤ 150) (hl2 : ∀ x ∈ lows2, x ≤ 150)
    (hc : 462 ≤ c ∧ c ≤ 562) :
    (menuRun idleAtThree (released lows1)).map Globals.currentSetting = some 4 ∧
    (menuRun idleAtThree (released lows1 ++ released [c])).map Globals.currentSetting
      = some 4 ∧
    (menuRun idleAtThree (released lows1 ++ released [c] ++ released lows2)).map
      Globals.currentSetting = some 5 := by
  have h0 : idleMenuAt idleAtThree 3 false := ⟨rfl, rfl, rfl, rfl, rfl, rfl⟩
  obtain ⟨g1, e1, p1⟩ := menuRun_low_gesture idleAtThree 3 lows1 h0 (by omega) h1 hl1
  obtain ⟨g2, e2, p2⟩ := menuStep_latched_center g1 4 c p1 hc
  obtain ⟨g3, e3, p3⟩ := menuRun_low_gesture g2 4 lows2 p2 (by omega) h2 hl2
  have r2 : menuRun g1 (released [c]) = some g2 := by
    show (menuStep g1 HIGH c).bind (fun g => menuRun g []) = some g2
    rw [e2]; rfl
  refine ⟨?_, ?_, ?_⟩
  · rw [e1]; exact congrArg some p1.2.2.2.2.1
  · rw [menuRun_append, e1]
    show (menuRun g1 (released [c])).map Globals.currentSetting = some 4
    rw [r2]; exact congrArg some p2.2.2.2.2.1
  · rw [menuRun_append, menuRun_append, e1]
    show ((menuRun g1 (released [c])).bind (fun g => menuRun g (released lows2))).map
      Globals.currentSetting = some 5
    rw [r2]
    show (menuRun g2 (released lows2)).map Globals.currentSetting = some 5
    rw [e3]; exact congrArg some p3.2.2.2.2.1

/-- C14 (as amended) with three low readings, a center reading and two low readings. -/
theorem menuRun_two_gestures_witness :
    (menuRun idleAtThree (released [100, 120, 90])).map Globals.currentSetting = some 4 ∧
    (menuRun idleAtThree (released [100, 120, 90] ++ released [500])).map
      Globals.currentSetting = some 4 ∧
    (menuRun idleAtThree (released [100, 120, 90] ++ released [500] ++ released [0, 150])).map
      Globals.currentSetting = some 5 :=
  menuRun_two_gestures [100, 120, 90] [0, 150] 500 (by decide) (by decide) (by decide)
    (by decide) (by decide)

/-- Steps in Idle with the trigger still held after its one-shot latch was set: the mode
does not toggle, nothing is written, and the settings stay as they are. -/
theorem menuRun_held_idle (g : Globals) (readings : List Int)
    (hidle : g.changeSelectedSetting = false) (hflag : g.settingsChangeFlag = true) :
    ∃ g', menuRun g (held readings) = some g' ∧ g'.changeSelectedSetting = false ∧
      g'.settingsChangeFlag = true ∧ g'.eeprom = g.eeprom ∧ g'.eepromPuts = g.eepromPuts ∧
      g'.remoteSettings = g.remoteSettings := by
  induction readings generalizing g with
  | nil => exact ⟨g, rfl, hidle, hflag, rfl, rfl, rfl⟩
  | cons x rest ih =>
    have hstep : menuStep g LOW x = menuAxis { g with hallMeasurement := x } := by
      show menuAxis (menuTrigger { g with hallMeasurement := x } LOW) = _
      rw [menuTrigger_held { g with hallMeasurement := x } LOW (by decide) hflag]
    obtain ⟨g1, e1, a1, a2, a3, a4, a5⟩ := menuAxis_idle { g with hallMeasurement := x } hidle
    obtain ⟨g2, e2, b1, b2, b3, b4, b5⟩ := ih g1 a2 (a3.trans hflag)
    refine ⟨g2, ?_, b1, b2, b3.trans a4, b4.trans a5, b5.trans a1⟩
    show (menuStep g LOW x).bind (fun g1 => menuRun g1 (held rest)) = some g2
    rw [hstep, e1]
    exact e2

/-- C17. A step of `controlSettingsMenu` taken in Editing with the trigger active and the
one-shot latch `settingsChangeFlag` clear returns, for any axis reading, with the mode Idle,
the settings unchanged by the step and written to the EEPROM by one `EEPROM.put`, so the
persisted record equals `remoteSettings`; and over any later steps with the trigger still
held the mode stays Idle and nothing more is written. -/
theorem controlSettingsMenu_leave_editing (g : Globals) (digitalRead : Int)
    (hedit : g.changeSelectedSetting = true) (hflag : g.settingsChangeFlag = false)
    (htrig : triggerActive digitalRead = true) :
    ∃ g', controlSettingsMenu g digitalRead = some g' ∧
      g'.changeSelectedSetting = false ∧ g'.settingsChangeFlag = true ∧
      g'.remoteSettings = g.remoteSettings ∧ g'.eeprom = g'.remoteSettings ∧
      g'.eepromPuts = g.eepromPuts + 1 ∧
      ∀ readings : List Int, ∃ g'', menuRun g' (held readings) = some g'' ∧
        g''.changeSelectedSetting = false ∧ g''.eeprom = g'.eeprom ∧
        g''.eepromPuts = g'.eepromPuts ∧ g''.remoteSettings = g'.remoteSettings := by
  unfold controlSettingsMenu
  rw [menuTrigger_leave_editing g digitalRead htrig hflag hedit]
  obtain ⟨g', e, a1, a2, a3, a4, a5⟩ := menuAxis_idle
    { updateEEPROMSettings g with changeSelectedSetting := false, settingsChangeFlag := true }
    rfl
  have a1' : g'.remoteSettings = g.remoteSettings := a1
  have a4' : g'.eeprom = g.remoteSettings := a4
  have a5' : g'.eepromPuts = g.eepromPuts + 1 := a5
  have a3' : g'.settingsChangeFlag = true := a3
  refine ⟨g', e, a2, a3', a1', a4'.trans a1'.symm, a5', fun readings => ?_⟩
  obtain ⟨g'', r, b1, -, b3, b4, b5⟩ := menuRun_held_idle g' readings a2 a3'
  exact ⟨g'', r, b1, b3, b4, b5⟩

/-- C17 on `editingMotorPoles`, where `motorPoles` was raised to 16 and the axis is at the
up extreme in the same step: the mode becomes Idle and the record written holds the edited
value. -/
theorem controlSettingsMenu_leave_editing_witness :
    (controlSettingsMenu editingMotorPoles LOW).map
      (fun g => (g.changeSelectedSetting, g.eeprom.motorPoles, g.remoteSettings.motorPoles))
      = some (false, 16, 16) ∧
    ∃ g', controlSettingsMenu editingMotorPoles LOW = some g' ∧
      g'.changeSelectedSetting = false ∧ g'.settingsChangeFlag = true ∧
      g'.remoteSettings = editingMotorPoles.remoteSettings ∧
      g'.eeprom = g'.remoteSettings ∧
      g'.eepromPuts = editingMotorPoles.eepromPuts + 1 ∧
      ∀ readings : List Int, ∃ g'', menuRun g' (held readings) = some g'' ∧
        g''.changeSelectedSetting = false ∧ g''.eeprom = g'.eeprom ∧
        g''.eepromPuts = g'.eepromPuts ∧ g''.remoteSettings = g'.remoteSettings :=
  ⟨by decide, controlSettingsMenu_leave_editing editingMotorPoles LOW rfl rfl (by decide)⟩

theorem rule_bounds {i : Nat} (hi : i < 11) : 0 ≤ ruleMin i ∧ ruleMax i ≤ 1023 := by
  interval_cases i <;> decide

/-- A value within the rule-table range of a field is stored in it unchanged. -/
theorem stored_of_inRange {i : Nat} (hi : i < 11) {w : Int}
    (h : ruleMin i ≤ w ∧ w ≤ ruleMax i) : stored i w = w := by
  unfold stored toByte toBool
  interval_cases i <;> simp [ruleMin, ruleMax, settingRules] at h ⊢ <;> omega

theorem setSettingValue_currentSetting (g : Globals) (i : Nat) (w : Int) :
    (setSettingValue g i w).currentSetting = g.currentSetting := by
  by_cases hi : i < 11
  · interval_cases i <;> rfl
  · have h11 : 11 ≤ i := by omega
    obtain ⟨k, rfl⟩ := Nat.exists_eq_add_of_le h11
    rw [Nat.add_comm]
    rfl

/-- The three outcomes of the axis part for the settings: nothing written, the selected
value raised by one on an up gesture, or lowered by one on a down gesture; a write happens
only when the new value is within the rule-table range. -/
theorem menuAxis_cases (g : Globals) {v : Int}
    (hv : getSettingValue g g.currentSetting = some v)
    (hv16 : -32767 ≤ v ∧ v ≤ 32766) :
    ∃ g', menuAxis g = some g' ∧ g'.currentSetting ≤ max g.currentSetting 10 ∧
      (g'.remoteSettings = g.remoteSettings ∨
        (g'.remoteSettings = (setSettingValue g g.currentSetting (v + 1)).remoteSettings ∧
          (ruleMin g.currentSetting ≤ v + 1 ∧ v + 1 ≤ ruleMax g.currentSetting) ∧
          g.hallMeasurement ≥ wrap16 (g.remoteSettings.maxHallValue - 150)) ∨
        (g'.remoteSettings = (setSettingValue g g.currentSetting (v - 1)).remoteSettings ∧
          (ruleMin g.currentSetting ≤ v - 1 ∧ v - 1 ≤ ruleMax g.currentSetting) ∧
          ¬ g.hallMeasurement ≥ wrap16 (g.remoteSettings.maxHallValue - 150) ∧
          g.hallMeasurement ≤ wrap16 (g.remoteSettings.minHallValue + 150))) := by
  have hinc : wrap16 (v + 1) = v + 1 := wrap16_of_range (by omega) (by omega)
  have hdec : wrap16 (v - 1) = v - 1 := wrap16_of_range (by omega) (by omega)
  have hle : g.currentSetting ≤ max g.currentSetting 10 := le_max_left _ _
  unfold menuAxis
  by_cases hA : g.hallMeasurement ≥ wrap16 (g.remoteSettings.maxHallValue - 150)
      ∧ g.settingsLoopFlag = false
  · rw [if_pos hA]
    by_cases hE : g.changeSelectedSetting = true
    · rw [if_pos hE, hv]
      simp only [Option.map_some', hinc]
      by_cases hR : inRange (v + 1) (ruleMin g.currentSetting) (ruleMax g.currentSetting) = true
      · rw [if_pos hR]
        exact ⟨_, rfl, (setSettingValue_currentSetting g _ _).le.trans hle,
          Or.inr (Or.inl ⟨rfl, (inRange_iff _ _ _).mp hR, hA.1⟩)⟩
      · rw [if_neg hR]
        exact ⟨_, rfl, hle, Or.inl rfl⟩
    · rw [if_neg hE]
      by_cases h0 : g.currentSetting ≠ 0
      · rw [if_pos h0]
        refine ⟨_, rfl, ?_, Or.inl rfl⟩
        show g.currentSetting - 1 ≤ max g.currentSetting 10
        omega
      · rw [if_neg h0]
        exact ⟨_, rfl, hle, Or.inl rfl⟩
  · rw [if_neg hA]
    by_cases hB : g.hallMeasurement ≤ wrap16 (g.remoteSettings.minHallValue + 150)
        ∧ g.settingsLoopFlag = false
    · rw [if_pos hB]
      have hnotup : ¬ g.hallMeasurement ≥ wrap16 (g.remoteSettings.maxHallValue - 150) :=
        fun h => hA ⟨h, hB.2⟩
      by_cases hE : g.changeSelectedSetting = true
      · rw [if_pos hE, hv]
        simp only [Option.map_some', hdec]
        by_cases hR : inRange (v - 1) (ruleMin g.currentSetting) (ruleMax g.currentSetting)
            = true
        · rw [if_pos hR]
          exact ⟨_, rfl, (setSettingValue_currentSetting g _ _).le.trans hle,
            Or.inr (Or.inr ⟨rfl, (inRange_iff _ _ _).mp hR, hnotup, hB.1⟩)⟩
        · rw [if_neg hR]
          exact ⟨_, rfl, hle, Or.inl rfl⟩
      · rw [if_neg hE]
        by_cases h10 : g.currentSetting < numOfSettings - 1
        · rw [if_pos h10]
          refine ⟨_, rfl, ?_, Or.inl rfl⟩
          show g.currentSetting + 1 ≤ max g.currentSetting 10
          have : g.currentSetting < 10 := h10
          omega
        · rw [if_neg h10]
          exact ⟨_, rfl, hle, Or.inl rfl⟩
    · rw [if_neg hB]
      split_ifs
      · exact ⟨_, rfl, hle, Or.inl rfl⟩
      · exact ⟨_, rfl, hle, Or.inl rfl⟩

/-- The effect on the eleven indexed values of writing an in-range value `w` to the selected
setting. -/
theorem write_selected {g g1 g' : Globals} {cur : Nat} {w : Int} (hcur : cur < 11)
    (hget1 : ∀ j, getSettingValue g1 j = getSettingValue g j)
    (hrs : g'.remoteSettings = (setSettingValue g1 cur w).remoteSettings)
    (hw : ruleMin cur ≤ w ∧ w ≤ ruleMax cur)
    (hrange : ∀ i, i < 11 → ∃ v, getSettingValue g i = some v ∧ ruleMin i ≤ v ∧ v ≤ ruleMax i) :
    (∀ i, i < 11 → ∃ v, getSettingValue g' i = some v ∧ ruleMin i ≤ v ∧ v ≤ ruleMax i) ∧
      (∀ j, j < 11 → j ≠ cur → getSettingValue g' j = getSettingValue g j) ∧
      getSettingValue g' cur = some w := by
  have hsame : getSettingValue g' cur = some w := by
    rw [getSettingValue_congr hrs cur, getSettingValue_setSettingValue_same g1 hcur,
      stored_of_inRange hcur hw]
  have hother : ∀ j, j ≠ cur → getSettingValue g' j = getSettingValue g j := fun j hj => by
    rw [getSettingValue_congr hrs j, getSettingValue_setSettingValue_other g1 (Ne.symm hj),
      hget1 j]
  refine ⟨fun i hi => ?_, fun j _ hj => hother j hj, hsame⟩
  by_cases hic : i = cur
  · subst hic
    exact ⟨w, hsame, hw⟩
  · rw [hother i hic]
    exact hrange i hi

/-- C16. If every setting is within its rule-table range and the selection index is in
0..10, a step of `controlSettingsMenu` returns for every mode, trigger level and reading,
with every setting still within its range; only the selected setting can change, and then
by exactly one; at its maximum an up gesture leaves it unchanged, and at its minimum a
down gesture leaves it unchanged. -/
theorem controlSettingsMenu_keeps_ranges (g : Globals) (digitalRead : Int)
    (hrange : ∀ i, i < 11 → ∃ v, getSettingValue g i = some v ∧ ruleMin i ≤ v ∧ v ≤ ruleMax i)
    (hcur : g.currentSetting ≤ 10) :
    ∃ g' v v', controlSettingsMenu g digitalRead = some g' ∧
      (∀ i, i < 11 → ∃ w, getSettingValue g' i = some w ∧ ruleMin i ≤ w ∧ w ≤ ruleMax i) ∧
      (∀ j, j < 11 → j ≠ g.currentSetting → getSettingValue g' j = getSettingValue g j) ∧
      getSettingValue g g.currentSetting = some v ∧
      getSettingValue g' g.currentSetting = some v' ∧
      (v' = v ∨ v' = v + 1 ∨ v' = v - 1) ∧
      g'.currentSetting ≤ 10 ∧
      (v = ruleMax g.currentSetting →
        g.remoteSettings.maxHallValue - 150 ≤ g.hallMeasurement → v' = v) ∧
      (v = ruleMin g.currentSetting →
        g.hallMeasurement < g.remoteSettings.maxHallValue - 150 →
        g.hallMeasurement ≤ g.remoteSettings.minHallValue + 150 → v' = v) := by
  have hc11 : g.currentSetting < 11 := by omega
  obtain ⟨e1, e2, e3, e4⟩ := menuTrigger_frame g digitalRead
  have hget1 : ∀ j, getSettingValue (menuTrigger g digitalRead) j = getSettingValue g j :=
    fun j => getSettingValue_congr e2 j
  obtain ⟨v, hv, hvr⟩ := hrange g.currentSetting hc11
  have hrb := rule_bounds hc11
  obtain ⟨m, hm, hmr⟩ := hrange 10 (by omega)
  have hmax : g.remoteSettings.maxHallValue = m := Option.some.inj hm
  have hmb : 0 ≤ m ∧ m ≤ 1023 := by
    have : ruleMin 10 = 0 ∧ ruleMax 10 = 1023 := by decide
    omega
  have hwmax : wrap16 ((menuTrigger g digitalRead).remoteSettings.maxHallValue - 150) =
      g.remoteSettings.maxHallValue - 150 := by
    rw [e2]; exact wrap16_of_range (by omega) (by omega)
  have hv1 : getSettingValue (menuTrigger g digitalRead)
      (menuTrigger g digitalRead).currentSetting = some v := by
    rw [e1, hget1]; exact hv
  obtain ⟨g', hax, hcur', hcase⟩ := menuAxis_cases (menuTrigger g digitalRead) hv1
    (by omega)
  rw [e1] at hcur'
  have hcur10 : g'.currentSetting ≤ 10 := by
    rw [max_eq_right hcur] at hcur'
    exact hcur'
  rw [e1, e3, hwmax] at hcase
  rcases hcase with hsame | ⟨hrs, hw, hup⟩ | ⟨hrs, hw, hnotup, hdown⟩
  · have hall : ∀ j, getSettingValue g' j = getSettingValue g j := fun j =>
      getSettingValue_congr (hsame.trans e2) j
    refine ⟨g', v, v, hax, fun i hi => ?_, fun j _ _ => hall j, hv, ?_, Or.inl rfl, hcur10,
      fun _ _ => rfl, fun _ _ _ => rfl⟩
    · rw [hall i]; exact hrange i hi
    · rw [hall]; exact hv
  · obtain ⟨r1, r2, r3⟩ := write_selected hc11 hget1 hrs hw hrange
    refine ⟨g', v, v + 1, hax, r1, r2, hv, r3, Or.inr (Or.inl rfl), hcur10,
      fun hmaxv _ => ?_, fun _ hlt _ => ?_⟩
    · omega
    · omega
  · obtain ⟨r1, r2, r3⟩ := write_selected hc11 hget1 hrs hw hrange
    refine ⟨g', v, v - 1, hax, r1, r2, hv, r3, Or.inr (Or.inr rfl), hcur10,
      fun _ hge => ?_, fun hminv _ _ => ?_⟩
    · omega
    · omega

/-- C16 on `editingMotorPoles` (index 3 at 16, axis at the up extreme, trigger released):
every setting stays in range and `motorPoles` goes from 16 to 17. -/
theorem controlSettingsMenu_keeps_ranges_witness :
    (controlSettingsMenu editingMotorPoles HIGH).bind (fun g => getSettingValue g 3)
      = some 17 ∧
    ∃ g' v v', controlSettingsMenu editingMotorPoles HIGH = some g' ∧
      (∀ i, i < 11 → ∃ w, getSettingValue g' i = some w ∧ ruleMin i ≤ w ∧ w ≤ ruleMax i) ∧
      (∀ j, j < 11 → j ≠ editingMotorPoles.currentSetting →
        getSettingValue g' j = getSettingValue editingMotorPoles j) ∧
      getSettingValue editingMotorPoles editingMotorPoles.currentSetting = some v ∧
      getSettingValue g' editingMotorPoles.currentSetting = some v' ∧
      (v' = v ∨ v' = v + 1 ∨ v' = v - 1) ∧
      g'.currentSetting ≤ 10 ∧
      (v = ruleMax editingMotorPoles.currentSetting →
        editingMotorPoles.remoteSettings.maxHallValue - 150 ≤
          editingMotorPoles.hallMeasurement → v' = v) ∧
      (v = ruleMin editingMotorPoles.currentSetting →
        editingMotorPoles.hallMeasurement <
          editingMotorPoles.remoteSettings.maxHallValue - 150 →
        editingMotorPoles.hallMeasurement ≤
          editingMotorPoles.remoteSettings.minHallValue + 150 → v' = v) :=
  ⟨by decide, controlSettingsMenu_keeps_ranges editingMotorPoles HIGH
    (fun i hi => by interval_cases i <;> exact ⟨_, rfl, by decide⟩) (by decide)⟩

/-! ## Main loop: drive mode -/

/-- What `transmitToVesc` hands to `radio.write`: the current `throttle`, when the gate is
open; `throttle` itself is not written. -/
theorem transmitToVesc_sent (g : Globals) (a : Attempt) :
    (transmitToVesc g a).throttle = g.throttle ∧
      (transmitToVesc g a).sent =
        (if gateOpen g a.now = true then g.sent ++ [g.throttle] else g.sent) := by
  unfold transmitToVesc
  split_ifs <;> exact ⟨rfl, rfl⟩

/-- The drive branch of `loop`: the state handed to `transmitToVesc` has the `sent` list of
the start of the iteration, and throttle 127 when the trigger is not active. -/
theorem loop_drive_eq (g : Globals) (analogRead : Nat → Int) (digitalRead : Int) (a : Attempt)
    (hdrive : g.changeSettings = false) {g1 : Globals}
    (hcalc : calculateThrottlePosition g analogRead = some g1)
    (hg1 : g1 = { g with hallMeasurement := g1.hallMeasurement, throttle := g1.throttle }) :
    ∃ g2, loop g analogRead digitalRead a = some (transmitToVesc g2 a) ∧ g2.sent = g.sent ∧
      (triggerActive digitalRead = false → g2.throttle = 127) := by
  have hcs : g1.changeSettings = false := by rw [hg1]; exact hdrive
  have hs : g1.sent = g.sent := by rw [hg1]
  unfold loop
  rw [hcalc]
  show ∃ g2, (if g1.changeSettings = true then controlSettingsMenu g1 digitalRead
    else some (transmitToVesc (if triggerActive digitalRead = true
      then { g1 with throttle := g1.throttle } else { g1 with throttle := 127 }) a)) = _ ∧ _
  rw [if_neg (by rw [hcs]; decide)]
  by_cases ht : triggerActive digitalRead = true
  · rw [if_pos ht]
    exact ⟨_, rfl, hs, fun h => by rw [ht] at h; cases h⟩
  · rw [if_neg ht]
    exact ⟨_, rfl, hs, fun _ => rfl⟩

/-- C18. In drive mode (`changeSettings` false) with a well-ordered 16-bit calibration, one
iteration of `loop` returns for every set of samples; when the trigger is not active the
throttle handed to `transmitToVesc` is 127, so the iteration sends either nothing (gate
closed) or exactly 127; and for any trigger level, if the iteration sends a value other
than 127 then the trigger is active. -/
theorem loop_drive_released_neutral (g : Globals) (analogRead : Nat → Int) (digitalRead : Int)
    (a : Attempt) (hdrive : g.changeSettings = false)
    (hmin : -32768 ≤ g.remoteSettings.minHallValue)
    (hmax : g.remoteSettings.maxHallValue ≤ 32767)
    (hlo : g.remoteSettings.minHallValue < g.remoteSettings.centerHallValue)
    (hhi : g.remoteSettings.centerHallValue < g.remoteSettings.maxHallValue) :
    ∃ g', loop g analogRead digitalRead a = some g' ∧
      (triggerActive digitalRead = false →
        g'.throttle = 127 ∧ (g'.sent = g.sent ∨ g'.sent = g.sent ++ [127])) ∧
      (g'.sent = g.sent ∨ ∃ x, g'.sent = g.sent ++ [x]) ∧
      (∀ x, g'.sent = g.sent ++ [x] → x ≠ 127 → triggerActive digitalRead = true) := by
  obtain ⟨m, hm, -⟩ := mapThrottle_some (s := g.remoteSettings) (hallAverage_range analogRead)
    hmin hmax hlo hhi
  obtain ⟨g2, hloop, hsent2, hthr2⟩ := loop_drive_eq g analogRead digitalRead a hdrive
    (calculateThrottlePosition_eq g analogRead hm) rfl
  obtain ⟨hthr, hsent⟩ := transmitToVesc_sent g2 a
  rw [hsent2] at hsent
  have hshape : (transmitToVesc g2 a).sent = g.sent ∨
      (transmitToVesc g2 a).sent = g.sent ++ [g2.throttle] := by
    rw [hsent]
    split_ifs
    · exact Or.inr rfl
    · exact Or.inl rfl
  refine ⟨transmitToVesc g2 a, hloop, fun hrel => ?_, ?_, fun x hx hne => ?_⟩
  · rw [hthr2 hrel] at hshape
    exact ⟨by rw [hthr, hthr2 hrel], hshape⟩
  · rcases hshape with h | h
    · exact Or.inl h
    · exact Or.inr ⟨_, h⟩
  · by_contra hnot
    have hrel : triggerActive digitalRead = false := by simpa using hnot
    rw [hthr2 hrel] at hshape
    rcases hshape with h | h
    · rw [h] at hx
      have := congrArg List.length hx
      simp at this
    · rw [h] at hx
      have := List.append_cancel_left hx
      simp at this
      exact hne this.symm

/-- C18 at the default calibration with the axis at 900, the gate open and the trigger
released (`HIGH`): the iteration sends 127. With the trigger held (`LOW`) it sends 224. -/
theorem loop_drive_released_neutral_witness :
    (loop (withCalibration 0 512 1023) (fun _ => 900) HIGH ⟨60, 60, true, []⟩).map
      Globals.sent = some [127] ∧
    (loop (withCalibration 0 512 1023) (fun _ => 900) LOW ⟨60, 60, true, []⟩).map
      Globals.sent = some [224] ∧
    ∃ g', loop (withCalibration 0 512 1023) (fun _ => 900) HIGH ⟨60, 60, true, []⟩ = some g' ∧
      (triggerActive HIGH = false →
        g'.throttle = 127 ∧ (g'.sent = (withCalibration 0 512 1023).sent ∨
          g'.sent = (withCalibration 0 512 1023).sent ++ [127])) ∧
      (g'.sent = (withCalibration 0 512 1023).sent ∨
        ∃ x, g'.sent = (withCalibration 0 512 1023).sent ++ [x]) ∧
      (∀ x, g'.sent = (withCalibration 0 512 1023).sent ++ [x] → x ≠ 127 →
        triggerActive HIGH = true) :=
  ⟨by decide, by decide,
    loop_drive_released_neutral (withCalibration 0 512 1023) (fun _ => 900) HIGH
      ⟨60, 60, true, []⟩ rfl (by decide) (by decide) (by decide) (by decide)⟩

end Esk8Remote
